import Mathlib

/-
Verification of the sourcemap-rewriting core of `react-prod-sourcemaps`
(`index.ts`): a shallow embedding of the loader/validator, the version
matcher, the composer callback and the orchestration entry point, together
with proofs about the claims of the specification.

Modelling conventions:
* JavaScript exceptions are modelled by `Except String`; the string is the
  thrown message.
* The process-wide ambient state the code reads (the `node:crypto` hash, the
  generated registry `hashesToSourcemapDescriptors` from `reactVersions.mjs`,
  the `assets` directory on disk, `__dirname`) is passed explicitly as an
  `Env` record, as the spec's design notes prescribe for the registry.
* The external dependencies `@ampproject/remapping` and
  `@jridgewell/resolve-uri` are not part of the repository; they are modelled
  from the spec (sections 4.2-4.4 and the glossary) where marked.
-/

namespace RPS

/-! ## Path segments and URI-style normalization -/

/-- Split a character list at every `/`.  Always returns at least one
segment; segments contain no `/`. -/
def splitSegs : List Char → List (List Char)
  | [] => [[]]
  | c :: rest =>
    if c = '/' then [] :: splitSegs rest
    else
      match splitSegs rest with
      | s :: ss => (c :: s) :: ss
      | [] => [[c]]

/-- Re-join segments with `/`. -/
def joinSegs : List (List Char) → List Char
  | [] => []
  | [s] => s
  | s :: ss => s ++ '/' :: joinSegs ss

/-- The path segment `.`. -/
def dotSeg : List Char := ['.']

/-- The path segment `..`. -/
def dotDotSeg : List Char := ['.', '.']

/-- One step of relative-reference normalization over a reversed stack of
output segments: `.` is dropped, `..` pops the previous segment (except at
the root and except on top of another `..`), anything else is pushed. -/
def normStep (stack : List (List Char)) (seg : List Char) : List (List Char) :=
  if seg = dotSeg then stack
  else if seg = dotDotSeg then
    match stack with
    | [] => [dotDotSeg]
    | top :: rest =>
      if top = dotDotSeg then seg :: stack
      else if top = ([] : List Char) then stack
      else rest
  else seg :: stack

/-- Normalize a segment list by resolving `.` and `..` references. -/
def normalizeSegs (segs : List (List Char)) : List (List Char) :=
  (segs.foldl normStep []).reverse

/-- Normalize a path: split at `/`, resolve `.` and `..`, re-join. -/
def normalizePathL (l : List Char) : List Char :=
  joinSegs (normalizeSegs (splitSegs l))

/-- String wrapper for `normalizePathL`. -/
def normalizeString (s : String) : String :=
  String.mk (normalizePathL s.data)

/-- Modelled from the spec: `@jridgewell/resolve-uri` is an external
dependency of the repository.  Per section 4.2 the second matcher pass
"resolve[s] relative references against an empty base, mirroring standard
URI-resolution semantics"; with an empty or absent base this normalizes the
`.` and `..` segments of the input away, and with a non-empty base (always
ending in `/` by the time it reaches this function) the relative input is
resolved against the base directory.  Scheme-specific behaviour of absolute
inputs beyond plain path normalization is not modelled. -/
def resolveUri (input : String) (base : Option String) : String :=
  match base with
  | none => normalizeString input
  | some b => if b = "" then normalizeString input else normalizeString (b ++ input)

/-- `endsWith "/"`, spelled out over the character list so that it evaluates
inside the kernel. -/
def endsWithSlash (b : String) : Bool :=
  match b.data.getLast? with
  | some c => c = '/'
  | none => false

/-- `resolve` from `index.ts` (borrowed there from `trace-mapping`
internals): the base is always treated as a directory, if it is not empty. -/
def resolve (input : String) (base : Option String) : String :=
  let base1 : Option String :=
    match base with
    | none => none
    | some b => if b ≠ "" && !(endsWithSlash b) then some (b ++ "/") else some b
  resolveUri input base1

/-! ## Parsed JSON documents and the loader/validator -/

/-- A parsed JSON value, the result of `JSON.parse`. -/
inductive Json where
  | null
  | bool (b : Bool)
  | num (n : Int)
  | str (s : String)
  | arr (elems : List Json)
  | obj (fields : List (String × Json))

/-- Whether a value is a (non-null, non-array) JavaScript object.  JS arrays
also have `typeof === "object"`, but an array has no `version`, `names` or
`sources` properties, so excluding them here gives the same outcome for
`isSourceMapV3`. -/
def Json.isObj : Json → Bool
  | .obj _ => true
  | _ => false

/-- Property access on a parsed object (JSON objects have unique keys). -/
def getField (j : Json) (k : String) : Option Json :=
  match j with
  | .obj fields => (fields.find? (fun p => p.1 == k)).map (fun p => p.2)
  | _ => none

/-- `isSourceMapV3` from `index.ts`: `typeof map === "object" && map !== null
&& map.version === 3 && "names" in map && "sources" in map`.  Note that only
the presence of `names` and `sources` is checked, not their shapes. -/
def isSourceMapV3 (map : Json) : Bool :=
  map.isObj &&
  (match getField map "version" with
   | some (.num n) => n == 3
   | _ => false) &&
  (getField map "names").isSome &&
  (getField map "sources").isSome

/-- `loadSourcemap` from `index.ts`, over parsed values: the filesystem plus
`JSON.parse` is modelled as `fs : String → Option Json` (`none` when
`fs.existsSync` is false).  Throws `Cannot find <path>` for a missing file
and `Invalid sourcemap: <path>` when the parse result fails `isSourceMapV3`;
otherwise returns the parsed document unchanged. -/
def loadSourcemap (fs : String → Option Json) (filePath : String) : Except String Json :=
  match fs filePath with
  | none => .error ("Cannot find " ++ filePath)
  | some maybeSourcemap =>
    if isSourceMapV3 maybeSourcemap then .ok maybeSourcemap
    else .error ("Invalid sourcemap: " ++ filePath)

/-! ## Structured sourcemap documents -/

/-- One decoded mapping segment: a generated position, optionally a source
index with an original position, and optionally a name index.  The encoded
`mappings` text of a document is opaque to the spec beyond round-trip-safe
composition, so documents carry their decoded segments directly. -/
structure Seg where
  genLine : Nat
  genCol : Nat
  src : Option (Nat × Nat × Nat)
  name : Option Nat
deriving DecidableEq, Repr

/-- The `SourceMapV3` interface from `index.ts` (copied there from
`trace-mapping`), as a structured document.  The `version` tag is carried as
data so that the runtime schema checks remain meaningful. -/
structure SourceMapV3 where
  version : Int
  file : Option String
  names : List String
  sourceRoot : Option String
  sources : List (Option String)
  sourcesContent : Option (List (Option String))
  mappings : List Seg
deriving DecidableEq, Repr

/-- `isSourceMapV3` specialized to an already structured document: the
`typeof`/`in` checks of the JS predicate hold by construction there, leaving
the `version === 3` check. -/
def isSourceMapV3Doc (m : SourceMapV3) : Bool :=
  m.version == 3

/-- `sourcesContent?.[i]`: the embedded content at position `i`, `none` for a
null entry, an out-of-range index, or an absent `sourcesContent` field. -/
def contentAt (m : SourceMapV3) (i : Nat) : Option String :=
  match m.sourcesContent with
  | none => none
  | some l => l.getD i none

/-- The embedded contents of a document, aligned with its `sources`. -/
def contentsList (m : SourceMapV3) : List (Option String) :=
  (List.range m.sources.length).map (fun i => contentAt m i)

/-- Modelled from the spec: `trace-mapping` (used by the composer) resolves
every entry of `sources` against the document's `sourceRoot` before handing
it to the loader callback; a null entry resolves from the empty string. -/
def resolvedSources (m : SourceMapV3) : List String :=
  m.sources.map (fun s => resolve (s.getD "") m.sourceRoot)

/-! ## The version registry and the ambient environment -/

/-- `ReactVersion` from `reactVersions.mjs`: one registered release of the
tracked artifact (minified filename, package identifier, version string). -/
structure ReactVersion where
  filename : String
  package : String
  version : String
deriving DecidableEq, Repr

/-- The ambient state `index.ts` reads.  `hashSHA256` wraps `node:crypto`
(external; any fixed function of the content). `hashesToSourcemapDescriptors`
is the registry generated into `reactVersions.mjs` (modelled from the spec as
a read-only fingerprint-to-descriptor lookup, passed explicitly per the
design notes).  `fs` is the `assets` storage on disk: path to parsed
structured document, `none` when the file is missing.  `dirname` is
`__dirname`. -/
structure Env where
  hashSHA256 : String → String
  hashesToSourcemapDescriptors : String → Option ReactVersion
  fs : String → Option SourceMapV3
  dirname : String

/-- `loadSourcemap` at the structured level, as used on the registry's own
assets: missing file and failed `isSourceMapV3` check throw exactly as in
the `Json`-level loader. -/
def loadSourcemapDoc (fs : String → Option SourceMapV3) (filePath : String) :
    Except String SourceMapV3 :=
  match fs filePath with
  | none => .error ("Cannot find " ++ filePath)
  | some maybeSourcemap =>
    if isSourceMapV3Doc maybeSourcemap then .ok maybeSourcemap
    else .error ("Invalid sourcemap: " ++ filePath)

/-- `loadExistingSourcemap` from `index.ts`: reads
`__dirname/../assets/<package>/<version>/<filename>.map` through
`loadSourcemap`.  `path.join` is modelled as interleaving `/` (the joined
path is only a lookup key for `fs`).  The verbose log line is returned
alongside the result. -/
def loadExistingSourcemap (env : Env) (verbose : Bool) (versionEntry : ReactVersion) :
    Except String (SourceMapV3 × List String) :=
  let filename := versionEntry.filename ++ ".map"
  let filePath := String.intercalate "/"
    [env.dirname, "../assets", versionEntry.package, versionEntry.version, filename]
  let logs := if verbose then ["Loading sourcemap from: " ++ filePath] else []
  match loadSourcemapDoc env.fs filePath with
  | .error e => .error e
  | .ok m => .ok (m, logs)

/-! ## The target filename pattern and the version matcher -/

/-- Whether `pat` occurs as a contiguous subsequence of `s`. -/
def containsSeq (pat : List Char) : List Char → Bool
  | [] => pat.isEmpty
  | c :: rest => pat.isPrefixOf (c :: rest) || containsSeq pat rest

/-- The two filename alternatives of the `SUPPORTED_PACKAGES` regular
expression from `index.ts`. -/
def SUPPORTED_PACKAGES : List String :=
  ["react-dom.profiling.min.js", "react-dom.production.min.js"]

/-- `SUPPORTED_PACKAGES.exec(s)`: `some` matched alternative when one occurs
in `s`, `none` otherwise.  (Which alternative is reported only feeds log
text; the code branches only on null-ness.) -/
def execSupportedPackages (s : String) : Option String :=
  SUPPORTED_PACKAGES.find? (fun p => containsSeq p.data s.data)

/-- The second-pass predicate of `findMatchingReactDOMVersion`: a null or
empty entry is skipped (`if (!filename) return false`), otherwise the entry
is normalized with `resolve(filename, "")` and compared to the candidate. -/
def fallbackPred (reactDomFilename : String) (s : Option String) : Bool :=
  match s with
  | none => false
  | some f => if f = "" then false else resolve f (some "") == reactDomFilename

/-- The `filenameIndex` computation of `findMatchingReactDOMVersion`
(lines 336-346): first `sources.indexOf(reactDomFilename)`, then, if that
fails, `sources.findIndex` with the normalization fallback. -/
def matchedFilenameIndex (reactDomFilename : String) (inputSourcemap : SourceMapV3) :
    Option Nat :=
  match inputSourcemap.sources.findIdx? (fun s => s == some reactDomFilename) with
  | some i => some i
  | none => inputSourcemap.sources.findIdx? (fallbackPred reactDomFilename)

/-- Lines 352-364 of `findMatchingReactDOMVersion`: given the embedded
content found at the matched position (`sourcesContent?.[filenameIndex]`),
reject falsy content (null, out of range, absent `sourcesContent`, or the
empty string, which is falsy in JS) with
`Cannot find source contents for '<name>'`, hash the content, and look the
fingerprint up in the registry, failing with
`Cannot find version for '<name>'` when it is not registered. -/
def resolveContents (env : Env) (reactDomFilename : String)
    (sourceContents : Option String) : Except String ReactVersion :=
  match sourceContents with
  | none =>
    .error ("Cannot find source contents for \x27" ++ reactDomFilename ++ "\x27")
  | some sourceContents =>
    if sourceContents = "" then
      .error ("Cannot find source contents for \x27" ++ reactDomFilename ++ "\x27")
    else
      match env.hashesToSourcemapDescriptors (env.hashSHA256 sourceContents) with
      | none =>
        .error ("Cannot find version for \x27" ++ reactDomFilename ++ "\x27")
      | some versionEntry => .ok versionEntry

/-- `findMatchingReactDOMVersion` from `index.ts`: the two-pass filename
search (`matchedFilenameIndex`) followed by content resolution
(`resolveContents`); throws `Cannot find '<name>' in input sourcemap` when
both passes fail. -/
def findMatchingReactDOMVersion (env : Env) (reactDomFilename : String)
    (inputSourcemap : SourceMapV3) : Except String ReactVersion :=
  match matchedFilenameIndex reactDomFilename inputSourcemap with
  | none =>
    .error ("Cannot find \x27" ++ reactDomFilename ++ "\x27 in input sourcemap")
  | some filenameIndex =>
    resolveContents env reactDomFilename (contentAt inputSourcemap filenameIndex)

/-! ## The composer (`@ampproject/remapping`)

Modelled from the spec, section 4.3: the library is an external dependency.
The composer walks every source entry of the input document in document
order, invokes the loader callback on the resolved source path, and splices
the mappings of every returned replacement document in, so that positions
which pointed into the replaced source point through to the replacement's
own original positions; references without a replacement are kept as-is.
The loader callback in `index.ts` is effectful (it appends to the
closed-over `reactVersions` array and logs); both effects are made explicit
in its return value and concatenated by the walk in document order. -/

/-- The walk of the composer over the resolved source list: calls the loader
on every entry in order, propagating a thrown error and concatenating the
accumulated version descriptors and log lines. -/
def walkSources (loader : String → Except String (Option SourceMapV3 × List ReactVersion × List String)) :
    List String → Except String (List (Option SourceMapV3) × List ReactVersion × List String)
  | [] => .ok ([], [], [])
  | r :: rs => do
    let (c, vs, ls) ← loader r
    let (cs, vss, lss) ← walkSources loader rs
    .ok (c :: cs, vs ++ vss, ls ++ lss)

/-- The block of (source, content) pairs a single input source contributes to
the composed output: the replacement's resolved sources and contents when the
loader supplied a replacement, the (already resolved) source itself with its
own content otherwise. -/
def blockOf (child : Option SourceMapV3) (kept : String × Option String) :
    List (String × Option String) :=
  match child with
  | some repl => (resolvedSources repl).zip (contentsList repl)
  | none => [kept]

/-- The blocks contributed by all input sources, in document order. -/
def blocksOf (m : SourceMapV3) (children : List (Option SourceMapV3)) :
    List (List (String × Option String)) :=
  (((resolvedSources m).zip (contentsList m)).zip children).map
    (fun p => blockOf p.2 p.1)

/-- Index offset of block `i` inside the flattened output source list. -/
def blockOffset (blocks : List (List (String × Option String))) (i : Nat) : Nat :=
  ((blocks.take i).map List.length).sum

/-- The names contributed by a replacement (none for a kept source). -/
def namesOf (child : Option SourceMapV3) : List String :=
  match child with
  | some repl => repl.names
  | none => []

/-- Index offset of replacement `i`'s names inside the composed name list. -/
def nameOffset (namesLen : Nat) (children : List (Option SourceMapV3)) (i : Nat) : Nat :=
  namesLen + ((children.take i).map (fun c => (namesOf c).length)).sum

/-- Trace a position `(l, c)` through a replacement's mappings: the segment
on generated line `l` with the greatest generated column not exceeding `c`,
if any. -/
def traceSegment (segs : List Seg) (l c : Nat) : Option Seg :=
  segs.foldl
    (fun acc s =>
      if s.genLine = l && s.genCol ≤ c then
        match acc with
        | none => some s
        | some t => if t.genCol ≤ s.genCol then some s else some t
      else acc)
    none

/-- Compose one segment of the input document: a segment without a source is
kept; a segment into a source without a replacement is kept, its source index
shifted to the source's position in the flattened output; a segment into a
replaced source is traced through the replacement's mappings (and dropped
when it cannot be traced), its source and name indices rebased into the
replacement's block. -/
def composeSeg (children : List (Option SourceMapV3))
    (blocks : List (List (String × Option String))) (namesLen : Nat) (seg : Seg) :
    Option Seg :=
  match seg.src with
  | none => some seg
  | some (i, l, c) =>
    match children.getD i none with
    | none => some { seg with src := some (blockOffset blocks i, l, c) }
    | some repl =>
      match traceSegment repl.mappings l c with
      | none => none
      | some t =>
        some { genLine := seg.genLine, genCol := seg.genCol,
               src := t.src.map (fun x => (blockOffset blocks i + x.1, x.2.1, x.2.2)),
               name := t.name.map (fun n => nameOffset namesLen children i + n) }

/-- The composed output document: the flattened per-block sources and
contents, the input names followed by the replacements' names, fully
resolved sources (hence no `sourceRoot`), version 3, and the input mappings
composed through the replacements. -/
def composedDoc (m : SourceMapV3) (children : List (Option SourceMapV3)) : SourceMapV3 :=
  { version := 3
    file := m.file
    names := m.names ++ (children.map namesOf).flatten
    sourceRoot := none
    sources := ((blocksOf m children).flatten).map (fun p => some p.1)
    sourcesContent := some (((blocksOf m children).flatten).map (fun p => p.2))
    mappings := m.mappings.filterMap (composeSeg children (blocksOf m children) m.names.length) }

/-- Modelled from the spec: `remapping(map, loader)`.  Walks the sources in
document order through the loader, then returns the composed document. -/
def remapping (map : SourceMapV3)
    (loader : String → Except String (Option SourceMapV3 × List ReactVersion × List String)) :
    Except String (SourceMapV3 × List ReactVersion × List String) := do
  let (children, vers, logs) ← walkSources loader (resolvedSources map)
  .ok (composedDoc map children, vers, logs)

/-! ## The orchestration entry point -/

/-- `RewriteSourcemapResult` from `index.ts`. -/
structure RewriteSourcemapResult where
  outputSourcemap : SourceMapV3
  rewroteSourcemap : Bool
  reactVersion : Option ReactVersion
deriving DecidableEq, Repr

/-- `if (options.verbose) log(...)`: the log lines one verbose-guarded log
statement emits. -/
def verboseLog (verbose : Bool) (msg : String) : List String :=
  if verbose then [msg] else []

/-- The tail of the loader callback once the matcher has produced a version
entry (lines 412-424): accumulate the entry, load the stored sourcemap for it
(with default options, i.e. not verbose), re-validate it, and return it as
the replacement. -/
def rewriteLoaderMatched (env : Env) (verbose : Bool) (matchedPackage file : String)
    (versionEntry : ReactVersion) :
    Except String (Option SourceMapV3 × List ReactVersion × List String) :=
  match loadExistingSourcemap env false versionEntry with
  | .error e => .error e
  | .ok (sourcemap, logs2) =>
    if isSourceMapV3Doc sourcemap then
      .ok (some sourcemap, [versionEntry],
        (verboseLog verbose ("Found " ++ matchedPackage ++ " in file: " ++ file) ++
         verboseLog verbose
           ("Found matching version for " ++ matchedPackage ++ ": " ++ versionEntry.version)) ++
        logs2)
    else
      .error ("Failed to load expected sourcemap for " ++ matchedPackage ++
              " version " ++ versionEntry.version)

/-- The resolution callback `maybeRewriteSourcemapWithReactProd` hands to
`remapping` (lines 391-425).  A source that does not match
`SUPPORTED_PACKAGES` is skipped with `null`.  For a matching source the
matcher is consulted; `findMatchingReactDOMVersion` throws on failure, so its
error propagates (the JS `if (!versionEntry)` guard on line 403 is
unreachable and is omitted); on success the load-and-substitute tail
`rewriteLoaderMatched` runs. -/
def rewriteLoader (env : Env) (verbose : Bool) (inputSourcemap : SourceMapV3)
    (file : String) : Except String (Option SourceMapV3 × List ReactVersion × List String) :=
  match execSupportedPackages file with
  | none =>
    .ok (none, [], verboseLog verbose
      ("Skipping sourcemap " ++ file ++ " because it does not contain a sourcemap for remapping"))
  | some matchedPackage =>
    match findMatchingReactDOMVersion env file inputSourcemap with
    | .error e => .error e
    | .ok versionEntry => rewriteLoaderMatched env verbose matchedPackage file versionEntry

/-- `maybeRewriteSourcemapWithReactProd` from `index.ts`: validates the input
document, runs the composer with the resolution callback, and reports the
composed document, whether any version was accumulated, and the first
accumulated version descriptor (`reactVersions[0] ?? null`). -/
def maybeRewriteSourcemapWithReactProd (env : Env) (verbose : Bool)
    (inputSourcemap : SourceMapV3) : Except String (RewriteSourcemapResult × List String) :=
  if !(isSourceMapV3Doc inputSourcemap) then .error "Invalid sourcemap"
  else
    match remapping inputSourcemap (rewriteLoader env verbose inputSourcemap) with
    | .error e => .error e
    | .ok (remapped, reactVersions, logs) =>
      .ok ({ outputSourcemap := remapped
             rewroteSourcemap := decide (reactVersions.length > 0)
             reactVersion := reactVersions.head? },
           logs ++ verboseLog (decide (reactVersions.length > 1) && verbose)
             "Found multiple React versions")

/-! ## Helper documents used by theorem statements -/

/-- A single-source document carrying a given candidate filename and content,
used to state that the matcher's result depends only on the matched position
and its content. -/
def singletonSourceDoc (cand : String) (c : Option String) : SourceMapV3 :=
  { version := 3, file := none, names := [], sourceRoot := none,
    sources := [some cand], sourcesContent := some [c], mappings := [] }

/-- A segment references only source indices below `n`. -/
def segInRange (n : Nat) (seg : Seg) : Prop :=
  ∀ i l c, seg.src = some (i, l, c) → i < n

/-! ## Concrete registry, environment and documents for closed statements -/

/-- The registered descriptor of the concrete scenarios. -/
def vMain : ReactVersion :=
  { filename := "react-dom.production.min.js", package := "react-dom", version := "18.2.0" }

/-- The storage path of `vMain`'s recorded sourcemap under `__dirname = /lib`. -/
def assetPathMain : String :=
  "/lib/../assets/react-dom/18.2.0/react-dom.production.min.js.map"

/-- The recorded original sourcemap stored for `vMain`. -/
def assetDocMain : SourceMapV3 :=
  { version := 3, file := none, names := [], sourceRoot := none,
    sources := [some "react-dom/src/index.js"],
    sourcesContent := some [some "ORIG"], mappings := [] }

/-- A concrete environment: the identity fingerprint, a registry holding
exactly the fingerprint `"MIN"` for `vMain`, and a storage holding exactly
`vMain`'s recorded sourcemap. -/
def envMain : Env :=
  { hashSHA256 := fun s => s,
    hashesToSourcemapDescriptors := fun h => if h = "MIN" then some vMain else none,
    fs := fun p => if p = assetPathMain then some assetDocMain else none,
    dirname := "/lib" }

/-- A valid input document with exactly one source, matching the target
pattern, whose embedded content is the registered fingerprint `"MIN"`. -/
def docMain : SourceMapV3 :=
  { version := 3, file := none, names := [], sourceRoot := none,
    sources := [some "react-dom.production.min.js"],
    sourcesContent := some [some "MIN"], mappings := [] }

/-- A second registered descriptor, distinguishable from `vMain`. -/
def vAlt : ReactVersion :=
  { filename := "react-dom.production.min.js", package := "react-dom", version := "17.0.2" }

/-- An environment whose registry holds fingerprint `"A"` for `vAlt` and
fingerprint `"B"` for `vMain`. -/
def envTwo : Env :=
  { envMain with hashesToSourcemapDescriptors := fun h =>
      if h = "A" then some vAlt else if h = "B" then some vMain else none }

/-- A document carrying the candidate filename at two positions, with
different registered contents at each. -/
def docDup : SourceMapV3 :=
  { version := 3, file := none, names := [], sourceRoot := none,
    sources := [some "react-dom.production.min.js",
                some "react-dom.production.min.js"],
    sourcesContent := some [some "A", some "B"], mappings := [] }

/-- A valid document with no pattern-matching source and one mapping
segment referencing its only source. -/
def docPlain : SourceMapV3 :=
  { version := 3, file := none, names := ["n"], sourceRoot := none,
    sources := [some "app.js"], sourcesContent := some [some "CODE"],
    mappings := [{ genLine := 0, genCol := 5, src := some (0, 3, 7), name := some 0 }] }

/-- The composed output of rewriting `docMain` under `envMain`: the minified
reference is replaced by the asset's original source. -/
def resMain : RewriteSourcemapResult :=
  { outputSourcemap :=
      { version := 3, file := none, names := [], sourceRoot := none,
        sources := [some "react-dom/src/index.js"],
        sourcesContent := some [some "ORIG"], mappings := [] },
    rewroteSourcemap := true, reactVersion := some vMain }

/-- The rewrite result for `docPlain`: a structural pass-through. -/
def resPlain : RewriteSourcemapResult :=
  { outputSourcemap :=
      { version := 3, file := none, names := ["n"], sourceRoot := none,
        sources := [some "app.js"], sourcesContent := some [some "CODE"],
        mappings := [{ genLine := 0, genCol := 5, src := some (0, 3, 7), name := some 0 }] },
    rewroteSourcemap := false, reactVersion := none }

/-- The replacement document a loader call yields for one source (`none` for
a skip or an error; used to characterize a successful walk). -/
def childOf (loader : String → Except String (Option SourceMapV3 × List ReactVersion × List String))
    (r : String) : Option SourceMapV3 :=
  match loader r with
  | .ok (c, _, _) => c
  | .error _ => none

/-- The version descriptors a loader call accumulates for one source. -/
def versOf (loader : String → Except String (Option SourceMapV3 × List ReactVersion × List String))
    (r : String) : List ReactVersion :=
  match loader r with
  | .ok (_, v, _) => v
  | .error _ => []

/-- The log lines a loader call emits for one source. -/
def logsOf (loader : String → Except String (Option SourceMapV3 × List ReactVersion × List String))
    (r : String) : List String :=
  match loader r with
  | .ok (_, _, l) => l
  | .error _ => []

/-- A segment that is neither `.` nor `..`. -/
def cleanSeg (s : List Char) : Prop :=
  s ≠ dotSeg ∧ s ≠ dotDotSeg

/-- Invariant of the normalization stack: clean segments on top of a block
of `..` segments. -/
def normStack (st : List (List Char)) : Prop :=
  ∃ r d, st = r ++ d ∧ (∀ x ∈ d, x = dotDotSeg) ∧ (∀ x ∈ r, cleanSeg x)

/-! ## Lemmas: path normalization is idempotent -/

theorem splitSegs_ne_nil (l : List Char) : splitSegs l ≠ [] := by
  cases l with
  | nil => simp [splitSegs]
  | cons c rest =>
    simp only [splitSegs]
    split
    · simp
    · split <;> simp

theorem no_slash_of_mem_splitSegs {l s : List Char} (h : s ∈ splitSegs l) : '/' ∉ s := by
  induction l generalizing s with
  | nil =>
    simp [splitSegs] at h
    simp [h]
  | cons c rest ih =>
    simp only [splitSegs] at h
    by_cases hc : c = '/'
    · rw [if_pos hc] at h
      rcases List.mem_cons.mp h with h1 | h1
      · simp [h1]
      · exact ih h1
    · rw [if_neg hc] at h
      rcases hsplit : splitSegs rest with _ | ⟨t, ts⟩
      · exact absurd hsplit (splitSegs_ne_nil rest)
      · rw [hsplit] at h
        rcases List.mem_cons.mp h with h1 | h1
        · subst h1
          intro hmem
          rcases List.mem_cons.mp hmem with h2 | h2
          · exact hc h2.symm
          · exact ih (hsplit ▸ List.mem_cons_self t ts) h2
        · exact ih (hsplit ▸ List.mem_cons_of_mem t h1)

theorem splitSegs_no_slash {s : List Char} (h : '/' ∉ s) : splitSegs s = [s] := by
  induction s with
  | nil => rfl
  | cons c rest ih =>
    have hc : ¬ c = '/' := fun hh => h (hh ▸ List.mem_cons_self c rest)
    simp only [splitSegs, if_neg hc, ih (fun hm => h (List.mem_cons_of_mem c hm))]

theorem splitSegs_append {s t : List Char} (h : '/' ∉ s) :
    splitSegs (s ++ '/' :: t) = s :: splitSegs t := by
  induction s with
  | nil => simp [splitSegs]
  | cons c rest ih =>
    have hc : ¬ c = '/' := fun hh => h (hh ▸ List.mem_cons_self c rest)
    simp only [List.cons_append, splitSegs, List.append_eq, if_neg hc,
      ih (fun hm => h (List.mem_cons_of_mem c hm))]

theorem splitSegs_joinSegs {ss : List (List Char)} (h : ∀ s ∈ ss, '/' ∉ s)
    (hne : ss ≠ []) : splitSegs (joinSegs ss) = ss := by
  induction ss with
  | nil => exact absurd rfl hne
  | cons s ss ih =>
    cases ss with
    | nil => simpa [joinSegs] using splitSegs_no_slash (h s (by simp))
    | cons t ts =>
      have hjoin : joinSegs (s :: t :: ts) = s ++ '/' :: joinSegs (t :: ts) := by
        simp [joinSegs]
      rw [hjoin, splitSegs_append (h s (by simp)),
        ih (fun x hx => h x (List.mem_cons_of_mem s hx)) (by simp)]

theorem normStep_normStack {st : List (List Char)} (h : normStack st) (seg : List Char) :
    normStack (normStep st seg) := by
  obtain ⟨r, d, rfl, hd, hr⟩ := h
  unfold normStep
  by_cases h1 : seg = dotSeg
  · rw [if_pos h1]
    exact ⟨r, d, rfl, hd, hr⟩
  · rw [if_neg h1]
    by_cases h2 : seg = dotDotSeg
    · rw [if_pos h2]
      cases r with
      | nil =>
        cases d with
        | nil => exact ⟨[], [dotDotSeg], rfl, by simp, by simp⟩
        | cons top ds =>
          have htop : top = dotDotSeg := hd top (by simp)
          simp only [List.nil_append]
          rw [if_pos htop]
          exact ⟨[], seg :: top :: ds, rfl,
            by
              intro x hx
              rcases List.mem_cons.mp hx with hx1 | hx1
              · exact hx1.trans (h2 ▸ rfl)
              · exact hd x (by simpa using hx1), by simp⟩
      | cons top rs =>
        have htop := hr top (by simp)
        simp only [List.cons_append]
        by_cases h3 : top = ([] : List Char)
        · rw [if_neg htop.2, if_pos h3]
          exact ⟨top :: rs, d, rfl, hd, hr⟩
        · rw [if_neg htop.2, if_neg h3]
          exact ⟨rs, d, rfl, hd, fun x hx => hr x (List.mem_cons_of_mem top hx)⟩
    · rw [if_neg h2]
      exact ⟨seg :: r, d, rfl, hd, by
        intro x hx
        rcases List.mem_cons.mp hx with hx1 | hx1
        · exact hx1 ▸ ⟨h1, h2⟩
        · exact hr x hx1⟩

theorem mem_normStep {st : List (List Char)} {seg x : List Char}
    (h : x ∈ normStep st seg) : x ∈ st ∨ x = seg ∨ x = dotDotSeg := by
  by_cases h1 : seg = dotSeg
  · unfold normStep at h
    rw [if_pos h1] at h
    exact Or.inl h
  · by_cases h2 : seg = dotDotSeg
    · subst h2
      cases st with
      | nil =>
        rw [show normStep [] dotDotSeg = [dotDotSeg] from rfl] at h
        simp at h
        exact Or.inr (Or.inr h)
      | cons top rest =>
        rw [show normStep (top :: rest) dotDotSeg =
            (if top = dotDotSeg then dotDotSeg :: top :: rest
             else if top = ([] : List Char) then top :: rest else rest) from rfl] at h
        by_cases h3 : top = dotDotSeg
        · rw [if_pos h3] at h
          rcases List.mem_cons.mp h with h4 | h4
          · exact Or.inr (Or.inl h4)
          · exact Or.inl h4
        · rw [if_neg h3] at h
          by_cases h4 : top = ([] : List Char)
          · rw [if_pos h4] at h
            exact Or.inl h
          · rw [if_neg h4] at h
            exact Or.inl (List.mem_cons_of_mem top h)
    · unfold normStep at h
      rw [if_neg h1, if_neg h2] at h
      rcases List.mem_cons.mp h with h3 | h3
      · exact Or.inr (Or.inl h3)
      · exact Or.inl h3

theorem mem_foldl_normStep {segs st : List (List Char)} {x : List Char}
    (h : x ∈ segs.foldl normStep st) : x ∈ st ∨ x ∈ segs ∨ x = dotDotSeg := by
  induction segs generalizing st with
  | nil =>
    simp at h
    exact Or.inl h
  | cons s ss ih =>
    rw [List.foldl_cons] at h
    rcases ih h with h1 | h1 | h1
    · rcases mem_normStep h1 with h2 | h2 | h2
      · exact Or.inl h2
      · exact Or.inr (Or.inl (h2 ▸ List.mem_cons_self s ss))
      · exact Or.inr (Or.inr h2)
    · exact Or.inr (Or.inl (List.mem_cons_of_mem s h1))
    · exact Or.inr (Or.inr h1)

theorem foldl_normStep_normStack {segs st : List (List Char)} (h : normStack st) :
    normStack (segs.foldl normStep st) := by
  induction segs generalizing st with
  | nil => exact h
  | cons s ss ih => exact ih (normStep_normStack h s)

theorem foldl_normStep_clean {segs : List (List Char)} (st : List (List Char))
    (h : ∀ x ∈ segs, cleanSeg x) :
    segs.foldl normStep st = segs.reverse ++ st := by
  induction segs generalizing st with
  | nil => simp
  | cons s ss ih =>
    have hs := h s (by simp)
    have hstep : normStep st s = s :: st := by
      unfold normStep
      rw [if_neg hs.1, if_neg hs.2]
    rw [List.foldl_cons, hstep, ih (s :: st) (fun x hx => h x (List.mem_cons_of_mem s hx))]
    simp

theorem foldl_normStep_dots {ds : List (List Char)} (st : List (List Char))
    (hst : ∀ x ∈ st, x = dotDotSeg) (hds : ∀ x ∈ ds, x = dotDotSeg) :
    ds.foldl normStep st = ds.reverse ++ st := by
  induction ds generalizing st with
  | nil => simp
  | cons s ss ih =>
    have hs := hds s (by simp)
    have hstep : normStep st s = s :: st := by
      subst hs
      cases st with
      | nil => rfl
      | cons t ts =>
        have ht := hst t (by simp)
        subst ht
        rfl
    rw [List.foldl_cons, hstep,
      ih (s :: st)
        (by
          intro x hx
          rcases List.mem_cons.mp hx with h1 | h1
          · exact h1.trans hs
          · exact hst x h1)
        (fun x hx => hds x (List.mem_cons_of_mem s hx))]
    simp

theorem normalizeSegs_shape (segs : List (List Char)) :
    ∃ d r, normalizeSegs segs = d ++ r ∧ (∀ x ∈ d, x = dotDotSeg) ∧ (∀ x ∈ r, cleanSeg x) := by
  obtain ⟨r, d, heq, hd, hr⟩ :=
    @foldl_normStep_normStack segs [] ⟨[], [], rfl, by simp, by simp⟩
  refine ⟨d.reverse, r.reverse, ?_, ?_, ?_⟩
  · rw [normalizeSegs, heq, List.reverse_append]
  · intro x hx
    exact hd x (List.mem_reverse.mp hx)
  · intro x hx
    exact hr x (List.mem_reverse.mp hx)

theorem normalizeSegs_fixed {d r : List (List Char)}
    (hd : ∀ x ∈ d, x = dotDotSeg) (hr : ∀ x ∈ r, cleanSeg x) :
    normalizeSegs (d ++ r) = d ++ r := by
  unfold normalizeSegs
  rw [List.foldl_append, foldl_normStep_dots [] (by simp) hd, List.append_nil,
    foldl_normStep_clean d.reverse hr]
  simp

theorem mem_normalizeSegs {segs : List (List Char)} {x : List Char}
    (h : x ∈ normalizeSegs segs) : x ∈ segs ∨ x = dotDotSeg := by
  unfold normalizeSegs at h
  rcases mem_foldl_normStep (List.mem_reverse.mp h) with h1 | h1 | h1
  · simp at h1
  · exact Or.inl h1
  · exact Or.inr h1

theorem normalizePathL_idem (l : List Char) :
    normalizePathL (normalizePathL l) = normalizePathL l := by
  obtain ⟨d, r, heq, hd, hr⟩ := normalizeSegs_shape (splitSegs l)
  by_cases hne : normalizeSegs (splitSegs l) = []
  · have h0 : normalizePathL l = [] := by
      unfold normalizePathL
      rw [hne]
      rfl
    rw [h0]
    rfl
  · have hslash : ∀ s ∈ normalizeSegs (splitSegs l), '/' ∉ s := by
      intro s hs
      rcases mem_normalizeSegs hs with h1 | h1
      · exact no_slash_of_mem_splitSegs h1
      · subst h1
        decide
    unfold normalizePathL
    rw [splitSegs_joinSegs hslash hne, heq, normalizeSegs_fixed hd hr]

theorem normalizeString_idem (s : String) :
    normalizeString (normalizeString s) = normalizeString s :=
  congrArg String.mk (normalizePathL_idem s.data)

theorem resolveUri_shape (x : String) (b : Option String) :
    ∃ y, resolveUri x b = normalizeString y := by
  rcases b with _ | s
  · exact ⟨x, rfl⟩
  · rw [show resolveUri x (some s) =
        (if s = "" then normalizeString x else normalizeString (s ++ x)) from rfl]
    by_cases h : s = ""
    · rw [if_pos h]
      exact ⟨x, rfl⟩
    · rw [if_neg h]
      exact ⟨s ++ x, rfl⟩

theorem resolve_shape (x : String) (b : Option String) :
    ∃ y, resolve x b = normalizeString y := by
  unfold resolve
  exact resolveUri_shape x _

theorem normalizeString_resolve (x : String) (b : Option String) :
    normalizeString (resolve x b) = resolve x b := by
  obtain ⟨y, hy⟩ := resolve_shape x b
  rw [hy, normalizeString_idem]

theorem resolve_none_eq (r : String) : resolve r none = normalizeString r := rfl

theorem resolve_empty_base (r : String) : resolve r (some "") = normalizeString r := by
  unfold resolve resolveUri
  simp

/-! ## Lemmas: lists, `findIdx?`, and the composer walk -/

theorem findIdx?_of_first {α : Type} (l : List α) (p : α → Bool) {i : Nat} (hi : i < l.length)
    (hfirst : ∀ j (hj : j < i), p (l.get ⟨j, Nat.lt_trans hj hi⟩) = false)
    (hp : p (l.get ⟨i, hi⟩) = true) : l.findIdx? p = some i := by
  induction l generalizing i with
  | nil => simp at hi
  | cons a l ih =>
    cases i with
    | zero =>
      rw [List.findIdx?_cons, if_pos (show p a = true from hp)]
    | succ i =>
      have ha : p a = false := hfirst 0 (Nat.succ_pos i)
      rw [List.findIdx?_cons, if_neg (by simp [ha]), List.findIdx?_succ,
        ih (Nat.lt_of_succ_lt_succ hi) (fun j hj => hfirst (j + 1) (Nat.succ_lt_succ hj)) hp]
      rfl

theorem findIdx?_of_unique {α : Type} (l : List α) (p : α → Bool) {i : Nat} (hi : i < l.length)
    (hp : p (l.get ⟨i, hi⟩) = true)
    (huniq : ∀ j (hj : j < l.length), p (l.get ⟨j, hj⟩) = true → j = i) :
    l.findIdx? p = some i := by
  refine findIdx?_of_first l p hi (fun j hj => ?_) hp
  by_contra hpj
  have := huniq j (Nat.lt_trans hj hi) (by simpa using hpj)
  omega

theorem flatten_of_single {α : Type} {l : List (List α)} (i : Nat) (hi : i < l.length)
    {v : List α} (hv : l.get ⟨i, hi⟩ = v)
    (hrest : ∀ j (hj : j < l.length), j ≠ i → l.get ⟨j, hj⟩ = []) :
    l.flatten = v := by
  induction l generalizing i with
  | nil => simp at hi
  | cons a l ih =>
    cases i with
    | zero =>
      have ha : a = v := hv
      have hl : l.flatten = [] := by
        rw [List.flatten_eq_nil_iff]
        intro s hs
        obtain ⟨⟨j, hj⟩, hjs⟩ := List.mem_iff_get.mp hs
        have := hrest (j + 1) (Nat.succ_lt_succ hj) (by omega)
        rw [← hjs]
        exact this
      simp [ha, hl]
    | succ i =>
      have ha : a = [] := hrest 0 (Nat.succ_pos _) (by omega)
      rw [List.flatten_cons, ha, List.nil_append]
      exact ih i (Nat.lt_of_succ_lt_succ hi) hv
        (fun j hj hji => hrest (j + 1) (Nat.succ_lt_succ hj) (by omega))

theorem flatten_all_nil {α : Type} {l : List (List α)} (h : ∀ s ∈ l, s = []) :
    l.flatten = ([] : List α) :=
  List.flatten_eq_nil_iff.mpr h

theorem get_map_eq {α β : Type} (f : α → β) (l : List α) (j : Nat)
    (h1 : j < (l.map f).length) (h2 : j < l.length) :
    (l.map f).get ⟨j, h1⟩ = f (l.get ⟨j, h2⟩) := by
  simp only [List.get_eq_getElem, List.getElem_map]

theorem filterMap_id_of {α : Type} {l : List α} {f : α → Option α}
    (h : ∀ a ∈ l, f a = some a) : l.filterMap f = l := by
  induction l with
  | nil => rfl
  | cons a l ih =>
    rw [List.filterMap_cons, h a (by simp), ih (fun x hx => h x (List.mem_cons_of_mem a hx))]

theorem walkSources_ok_of {loader : String → Except String (Option SourceMapV3 × List ReactVersion × List String)}
    {rs : List String} (h : ∀ r ∈ rs, ∃ x, loader r = .ok x) :
    walkSources loader rs =
      .ok (rs.map (childOf loader), (rs.map (versOf loader)).flatten,
           (rs.map (logsOf loader)).flatten) := by
  induction rs with
  | nil => rfl
  | cons r rs ih =>
    obtain ⟨x, hr⟩ := h r (by simp)
    obtain ⟨c, vs, ls⟩ := x
    have hc : childOf loader r = c := by
      simp [childOf, hr]
    have hv : versOf loader r = vs := by
      simp [versOf, hr]
    have hl : logsOf loader r = ls := by
      simp [logsOf, hr]
    simp only [walkSources, hr, ih (fun a ha => h a (List.mem_cons_of_mem r ha)),
      List.map_cons, List.flatten_cons, hc, hv, hl]
    rfl

theorem walkSources_ok_elim {loader : String → Except String (Option SourceMapV3 × List ReactVersion × List String)}
    {rs : List String} {t : List (Option SourceMapV3) × List ReactVersion × List String}
    (h : walkSources loader rs = .ok t) : ∀ r ∈ rs, ∃ x, loader r = .ok x := by
  induction rs generalizing t with
  | nil =>
    intro r hr
    simp at hr
  | cons r rs ih =>
    intro a ha
    simp only [walkSources] at h
    cases hl : loader r with
    | error e =>
      rw [hl] at h
      exact absurd h (by intro hh; cases hh)
    | ok x =>
      rw [hl] at h
      obtain ⟨c, vs, ls⟩ := x
      cases hw : walkSources loader rs with
      | error e =>
        rw [hw] at h
        exact absurd h (by intro hh; cases hh)
      | ok t2 =>
        rcases List.mem_cons.mp ha with h1 | h1
        · exact ⟨(c, vs, ls), h1 ▸ hl⟩
        · exact ih hw a h1

theorem walkSources_error_at {loader : String → Except String (Option SourceMapV3 × List ReactVersion × List String)}
    {rs : List String} {i : Nat} (hi : i < rs.length)
    (hpre : ∀ j (hj : j < i), ∃ x, loader (rs.get ⟨j, Nat.lt_trans hj hi⟩) = .ok x)
    {e : String} (he : loader (rs.get ⟨i, hi⟩) = .error e) :
    walkSources loader rs = .error e := by
  induction rs generalizing i with
  | nil => simp at hi
  | cons r rs ih =>
    cases i with
    | zero =>
      simp only [walkSources]
      rw [show (r :: rs).get ⟨0, hi⟩ = r from rfl] at he
      rw [he]
      rfl
    | succ i =>
      obtain ⟨x, hr⟩ := hpre 0 (Nat.succ_pos i)
      obtain ⟨c, vs, ls⟩ := x
      simp only [walkSources]
      rw [show (r :: rs).get ⟨0, Nat.lt_trans (Nat.succ_pos i) hi⟩ = r from rfl] at hr
      rw [hr, ih (Nat.lt_of_succ_lt_succ hi)
        (fun j hj => hpre (j + 1) (Nat.succ_lt_succ hj)) he]
      rfl

theorem blockOffset_all_singleton {blocks : List (List (String × Option String))}
    (h : ∀ b ∈ blocks, b.length = 1) {i : Nat} (hi : i ≤ blocks.length) :
    blockOffset blocks i = i := by
  induction blocks generalizing i with
  | nil =>
    have h0 : i = 0 := Nat.le_zero.mp hi
    subst h0
    rfl
  | cons b bs ih =>
    cases i with
    | zero => rfl
    | succ i =>
      have hb : b.length = 1 := h b (by simp)
      have : blockOffset (b :: bs) (i + 1) = b.length + blockOffset bs i := by
        simp [blockOffset, List.take_succ_cons]
      rw [this, hb, ih (fun x hx => h x (List.mem_cons_of_mem b hx))
        (Nat.le_of_succ_le_succ hi)]
      omega

/-! ## Lemmas: unfolding the composer and the entry point -/

theorem remapping_ok_of {map : SourceMapV3}
    {loader : String → Except String (Option SourceMapV3 × List ReactVersion × List String)}
    {children : List (Option SourceMapV3)} {vers : List ReactVersion} {logs : List String}
    (hw : walkSources loader (resolvedSources map) = .ok (children, vers, logs)) :
    remapping map loader = .ok (composedDoc map children, vers, logs) := by
  unfold remapping
  rw [hw]
  rfl

theorem remapping_ok_elim {map : SourceMapV3}
    {loader : String → Except String (Option SourceMapV3 × List ReactVersion × List String)}
    {m : SourceMapV3} {vers : List ReactVersion} {logs : List String}
    (h : remapping map loader = .ok (m, vers, logs)) :
    ∃ children, walkSources loader (resolvedSources map) = .ok (children, vers, logs) ∧
      m = composedDoc map children := by
  unfold remapping at h
  cases hw : walkSources loader (resolvedSources map) with
  | error e =>
    rw [hw] at h
    cases h
  | ok t =>
    obtain ⟨children, vers2, logs2⟩ := t
    rw [hw] at h
    have h2 : (Except.ok (composedDoc map children, vers2, logs2) :
        Except String (SourceMapV3 × List ReactVersion × List String)) = .ok (m, vers, logs) := h
    simp only [Except.ok.injEq, Prod.mk.injEq] at h2
    obtain ⟨hm, hv2, hl2⟩ := h2
    subst hv2
    subst hl2
    exact ⟨children, rfl, hm.symm⟩

theorem maybeRewrite_of_walk {env : Env} {verbose : Bool} {doc : SourceMapV3}
    {children : List (Option SourceMapV3)} {vers : List ReactVersion} {logs : List String}
    (hv : doc.version = 3)
    (hw : walkSources (rewriteLoader env verbose doc) (resolvedSources doc) =
      .ok (children, vers, logs)) :
    maybeRewriteSourcemapWithReactProd env verbose doc =
      .ok ({ outputSourcemap := composedDoc doc children,
             rewroteSourcemap := decide (vers.length > 0),
             reactVersion := vers.head? },
           logs ++ verboseLog (decide (vers.length > 1) && verbose)
             "Found multiple React versions") := by
  have hvd : isSourceMapV3Doc doc = true := by
    simp [isSourceMapV3Doc, hv]
  unfold maybeRewriteSourcemapWithReactProd
  rw [hvd, remapping_ok_of hw]
  rfl

theorem maybeRewrite_ok_elim {env : Env} {verbose : Bool} {doc : SourceMapV3}
    {res : RewriteSourcemapResult} {lg : List String}
    (h : maybeRewriteSourcemapWithReactProd env verbose doc = .ok (res, lg)) :
    ∃ vers wlogs,
      remapping doc (rewriteLoader env verbose doc) = .ok (res.outputSourcemap, vers, wlogs) ∧
      res.rewroteSourcemap = decide (vers.length > 0) ∧
      res.reactVersion = vers.head? := by
  unfold maybeRewriteSourcemapWithReactProd at h
  split at h
  · cases h
  · cases hrem : remapping doc (rewriteLoader env verbose doc) with
    | error e =>
      rw [hrem] at h
      cases h
    | ok t =>
      obtain ⟨m, vers, wlogs⟩ := t
      rw [hrem] at h
      simp only [Except.ok.injEq, Prod.mk.injEq] at h
      obtain ⟨h1, h2⟩ := h
      subst h1
      exact ⟨vers, wlogs, rfl, rfl, rfl⟩

theorem maybeRewrite_error_of_walk {env : Env} {verbose : Bool} {doc : SourceMapV3}
    {e : String} (hv : doc.version = 3)
    (hw : walkSources (rewriteLoader env verbose doc) (resolvedSources doc) = .error e) :
    maybeRewriteSourcemapWithReactProd env verbose doc = .error e := by
  have hvd : isSourceMapV3Doc doc = true := by
    simp [isSourceMapV3Doc, hv]
  unfold maybeRewriteSourcemapWithReactProd remapping
  rw [hvd, hw]
  rfl

theorem rewriteLoader_ok_none_elim {env : Env} {verbose : Bool} {doc : SourceMapV3}
    {file : String} {x : Option SourceMapV3 × List ReactVersion × List String}
    (h : rewriteLoader env verbose doc file = .ok x) (hx : x.1 = none) :
    execSupportedPackages file = none ∧ x.2.1 = [] := by
  unfold rewriteLoader rewriteLoaderMatched at h
  split at h
  · rename_i hexec
    simp only [Except.ok.injEq] at h
    subst h
    exact ⟨hexec, rfl⟩
  · rename_i hexec
    split at h
    · exact Except.noConfusion h
    · split at h
      · exact Except.noConfusion h
      · split at h
        · simp only [Except.ok.injEq] at h
          subst h
          exact absurd hx (by simp)
        · exact Except.noConfusion h

theorem rewriteLoader_ok_some_elim {env : Env} {verbose : Bool} {doc : SourceMapV3}
    {file : String} {x : Option SourceMapV3 × List ReactVersion × List String}
    (h : rewriteLoader env verbose doc file = .ok x) {repl : SourceMapV3}
    (hx : x.1 = some repl) :
    ∃ pkg entry lg,
      execSupportedPackages file = some pkg ∧
      findMatchingReactDOMVersion env file doc = .ok entry ∧
      loadExistingSourcemap env false entry = .ok (repl, lg) ∧
      x.2.1 = [entry] := by
  unfold rewriteLoader rewriteLoaderMatched at h
  split at h
  · rename_i hexec
    simp only [Except.ok.injEq] at h
    subst h
    exact absurd hx (by simp)
  · rename_i pkg hexec
    split at h
    · exact Except.noConfusion h
    · rename_i entry hfind
      split at h
      · exact Except.noConfusion h
      · rename_i sm lg2 hload
        split at h
        · simp only [Except.ok.injEq] at h
          subst h
          simp only [Option.some.injEq] at hx
          subst hx
          exact ⟨pkg, entry, lg2, hexec, hfind, hload, rfl⟩
        · exact Except.noConfusion h


/-! ## Lemmas: the matcher on a singleton document -/

theorem matchedFilenameIndex_singleton (cand : String) (c : Option String) :
    matchedFilenameIndex cand (singletonSourceDoc cand c) = some 0 := by
  unfold matchedFilenameIndex singletonSourceDoc
  simp [List.findIdx?_cons]

theorem contentAt_singleton (cand : String) (c : Option String) :
    contentAt (singletonSourceDoc cand c) 0 = c := rfl

theorem findMatching_of_matchedIdx {env : Env} {cand : String} {doc : SourceMapV3} {i : Nat}
    (hidx : matchedFilenameIndex cand doc = some i) :
    findMatchingReactDOMVersion env cand doc =
      findMatchingReactDOMVersion env cand (singletonSourceDoc cand (contentAt doc i)) := by
  unfold findMatchingReactDOMVersion
  rw [hidx, matchedFilenameIndex_singleton]
  exact congrArg (resolveContents env cand) (contentAt_singleton cand (contentAt doc i)).symm

/-! ## The claims -/

/-- C1: the spec claims that per-reference resolution failures (source name
absent from `sources`, embedded content missing, or fingerprint not
registered) are caught at the composer boundary, leave the reference
unresolved, do not abort the walk, and yield `rewroteSourcemap = false`.
The code instead throws out of `maybeRewriteSourcemapWithReactProd`:
`findMatchingReactDOMVersion` throws rather than returning `null`, no caller
catches, and the `if (!versionEntry)` guard (line 403) with its
"Please file an issue" log, the intended graceful path, is unreachable.
This theorem evaluates the rewrite entry point at three failing inputs
and shows each call aborts with the matcher error. -/
theorem C1_per_reference_failure_aborts_rewrite :
    (maybeRewriteSourcemapWithReactProd envMain false
      { docMain with sourcesContent := some [none] }
      = .error ("Cannot find source contents for \x27react-dom.production.min.js\x27")) ∧
    (maybeRewriteSourcemapWithReactProd envMain false
      { docMain with sourcesContent := some [some "XYZ"] }
      = .error ("Cannot find version for \x27react-dom.production.min.js\x27")) ∧
    (maybeRewriteSourcemapWithReactProd envMain false
      { docMain with sourceRoot := some "webpack://x" }
      = .error ("Cannot find \x27webpack://x/react-dom.production.min.js\x27 in input sourcemap")) :=
  ⟨rfl, rfl, rfl⟩

/-- C2 counterexample: the claim requires validation to fail for a document
whose `names`/`sources` fields do not have the correct shapes.  The document
below carries the JSON number `5` for both fields, not a list shape, yet
`isSourceMapV3` accepts it (only presence is checked) and `load` returns it
without error, refuting the claim at this input. -/
theorem C2_counterexample_shape_not_validated :
    getField (Json.obj [("version", Json.num 3), ("names", Json.num 5), ("sources", Json.num 5)])
      "names" = some (Json.num 5) ∧
    isSourceMapV3
      (Json.obj [("version", Json.num 3), ("names", Json.num 5), ("sources", Json.num 5)]) = true ∧
    loadSourcemap
      (fun p => if p = "app.js.map" then
        some (Json.obj [("version", Json.num 3), ("names", Json.num 5), ("sources", Json.num 5)])
       else none) "app.js.map"
      = .ok (Json.obj [("version", Json.num 3), ("names", Json.num 5), ("sources", Json.num 5)]) :=
  ⟨rfl, rfl, rfl⟩

/-- C2 (amended): for every parsed document whose schema-version tag is not
the number `3`, or which lacks the `names` or `sources` fields (presence
only: shapes are not validated), or which is missing or not an object, the
loader fails with an error, never silently defaulting; every object document
with version `3` and both fields present is accepted; and the rewrite entry
point rejects any document whose version tag is not `3`. -/
theorem C2_load_validates_version_and_presence :
    (∀ (fs : String → Option Json) (p : String), fs p = none →
      loadSourcemap fs p = .error ("Cannot find " ++ p)) ∧
    (∀ (fs : String → Option Json) (p : String) (j : Json), fs p = some j →
      getField j "version" ≠ some (Json.num 3) →
      loadSourcemap fs p = .error ("Invalid sourcemap: " ++ p)) ∧
    (∀ (fs : String → Option Json) (p : String) (j : Json), fs p = some j →
      (getField j "names" = none ∨ getField j "sources" = none) →
      loadSourcemap fs p = .error ("Invalid sourcemap: " ++ p)) ∧
    (∀ (fs : String → Option Json) (p : String) (j : Json), fs p = some j →
      j.isObj = true → getField j "version" = some (Json.num 3) →
      (getField j "names").isSome = true → (getField j "sources").isSome = true →
      loadSourcemap fs p = .ok j) ∧
    (∀ (env : Env) (verbose : Bool) (doc : SourceMapV3), doc.version ≠ 3 →
      maybeRewriteSourcemapWithReactProd env verbose doc = .error "Invalid sourcemap") := by
  refine ⟨?_, ?_, ?_, ?_, ?_⟩
  · intro fs p hfs
    unfold loadSourcemap
    rw [hfs]
  · intro fs p j hfs hv
    have hmatch : (match getField j "version" with
        | some (.num n) => n == 3
        | _ => false) = false := by
      cases hg : getField j "version" with
      | none => rfl
      | some v =>
        cases v with
        | null => rfl
        | bool b => rfl
        | str s => rfl
        | arr l => rfl
        | obj f => rfl
        | num n =>
          by_cases hn : n = 3
          · exact absurd (by rw [hg, hn]) hv
          · exact beq_eq_false_iff_ne.mpr hn
    have hfalse : isSourceMapV3 j = false := by
      unfold isSourceMapV3
      rw [hmatch]
      simp
    unfold loadSourcemap
    rw [hfs]
    show (if isSourceMapV3 j = true then Except.ok j
          else Except.error ("Invalid sourcemap: " ++ p)) = _
    rw [hfalse]
    rfl
  · intro fs p j hfs hns
    have hfalse : isSourceMapV3 j = false := by
      unfold isSourceMapV3
      rcases hns with h | h <;> simp [h]
    unfold loadSourcemap
    rw [hfs]
    show (if isSourceMapV3 j = true then Except.ok j
          else Except.error ("Invalid sourcemap: " ++ p)) = _
    rw [hfalse]
    rfl
  · intro fs p j hfs hobj hver hn hs
    have htrue : isSourceMapV3 j = true := by
      unfold isSourceMapV3
      rw [hver]
      simp [hobj, hn, hs]
    unfold loadSourcemap
    rw [hfs]
    show (if isSourceMapV3 j = true then Except.ok j
          else Except.error ("Invalid sourcemap: " ++ p)) = _
    rw [htrue]
    rfl
  · intro env verbose doc h
    unfold maybeRewriteSourcemapWithReactProd
    rw [if_pos (by simp [isSourceMapV3Doc, h])]

/-- C2 witness: concrete runs of each conjunct of the amended claim: a
missing file, a wrong version tag, a missing `names` field, an accepted
well-shaped document, and the entry-point precondition failure. -/
theorem C2_load_validates_witness :
    loadSourcemap (fun _ => none) "m.map" = .error ("Cannot find " ++ "m.map") ∧
    loadSourcemap (fun _ => some (Json.obj [("version", Json.num 2),
        ("names", Json.arr []), ("sources", Json.arr [])])) "m.map"
      = .error ("Invalid sourcemap: " ++ "m.map") ∧
    loadSourcemap (fun _ => some (Json.obj [("version", Json.num 3),
        ("sources", Json.arr [])])) "m.map"
      = .error ("Invalid sourcemap: " ++ "m.map") ∧
    loadSourcemap (fun _ => some (Json.obj [("version", Json.num 3),
        ("names", Json.arr []), ("sources", Json.arr [])])) "m.map"
      = .ok (Json.obj [("version", Json.num 3),
        ("names", Json.arr []), ("sources", Json.arr [])]) ∧
    maybeRewriteSourcemapWithReactProd envMain false { docMain with version := 2 }
      = .error "Invalid sourcemap" := by
  refine ⟨?_, ?_, ?_, ?_, ?_⟩
  · exact C2_load_validates_version_and_presence.1 _ "m.map" rfl
  · exact C2_load_validates_version_and_presence.2.1 _ "m.map" _ rfl
      (by intro h; injection h with h1; injection h1 with h2; exact absurd h2 (by decide))
  · exact C2_load_validates_version_and_presence.2.2.1 _ "m.map" _ rfl (Or.inl rfl)
  · exact C2_load_validates_version_and_presence.2.2.2.1 _ "m.map" _ rfl rfl rfl rfl rfl
  · exact C2_load_validates_version_and_presence.2.2.2.2 envMain false _ (by decide)

/-- C9: a matched source position whose embedded content entry is the empty
string is treated exactly like a position with absent content: the matcher
fails with the missing-content error (the empty string is falsy in
JavaScript, so the missing-content throw fires for it as well). -/
theorem C9_empty_content_is_missing_content (env : Env) (cand : String)
    (doc : SourceMapV3) (i : Nat)
    (hidx : matchedFilenameIndex cand doc = some i)
    (hc : contentAt doc i = some "" ∨ contentAt doc i = none) :
    findMatchingReactDOMVersion env cand doc =
      .error ("Cannot find source contents for \x27" ++ cand ++ "\x27") := by
  unfold findMatchingReactDOMVersion
  rw [hidx]
  show resolveContents env cand (contentAt doc i) = _
  rcases hc with hc | hc
  · rw [hc]
    rfl
  · rw [hc]
    rfl

/-- C9 witness: a zero-length content entry at the matched position. -/
theorem C9_empty_content_is_missing_content_witness :
    findMatchingReactDOMVersion envMain "react-dom.production.min.js"
      { docMain with sourcesContent := some [some ""] } =
      .error ("Cannot find source contents for \x27react-dom.production.min.js\x27") :=
  C9_empty_content_is_missing_content envMain "react-dom.production.min.js"
    { docMain with sourcesContent := some [some ""] } 0 rfl (Or.inl rfl)


/-- C5: the version matcher first searches the source list for an exact
string match (first conjunct: an exact match at index 1 wins over the entry
at index 0 even though that entry normalizes to the candidate, witnessed by
returning the version registered for index 1's content); only when no exact
match exists does it run the URI-normalization fallback (second conjunct:
the entry written `./node_modules/react-dom/cjs/react-dom.production.min.js`
with no protocol prefix fails the exact pass yet still matches, returning
the registered version); and when both passes fail the matcher errors with
the source-not-found message (third conjunct). -/
theorem C5_exact_then_normalized_matching :
    ((resolve "./x/react-dom.production.min.js" (some "") =
        "x/react-dom.production.min.js") ∧
     findMatchingReactDOMVersion envTwo "x/react-dom.production.min.js"
      { version := 3, file := none, names := [], sourceRoot := none,
        sources := [some "./x/react-dom.production.min.js",
                    some "x/react-dom.production.min.js"],
        sourcesContent := some [some "A", some "B"], mappings := [] } = .ok vMain) ∧
    (((({ version := 3, file := none, names := [], sourceRoot := none,
          sources := [some "./node_modules/react-dom/cjs/react-dom.production.min.js"],
          sourcesContent := some [some "MIN"], mappings := [] } :
          SourceMapV3).sources.findIdx?
        (fun s => s == some "node_modules/react-dom/cjs/react-dom.production.min.js")) = none) ∧
     findMatchingReactDOMVersion envMain
       "node_modules/react-dom/cjs/react-dom.production.min.js"
       { version := 3, file := none, names := [], sourceRoot := none,
         sources := [some "./node_modules/react-dom/cjs/react-dom.production.min.js"],
         sourcesContent := some [some "MIN"], mappings := [] } = .ok vMain) ∧
    (∀ (env : Env) (cand : String) (doc : SourceMapV3),
      (∀ s ∈ doc.sources, s ≠ some cand) →
      (∀ f, some f ∈ doc.sources → f ≠ "" → resolve f (some "") ≠ cand) →
      findMatchingReactDOMVersion env cand doc =
        .error ("Cannot find \x27" ++ cand ++ "\x27 in input sourcemap")) := by
  refine ⟨⟨rfl, rfl⟩, ⟨rfl, rfl⟩, ?_⟩
  intro env cand doc hne hnn
  have h1 : doc.sources.findIdx? (fun s => s == some cand) = none := by
    rw [List.findIdx?_eq_none_iff]
    intro x hx
    exact beq_eq_false_iff_ne.mpr (hne x hx)
  have h2 : doc.sources.findIdx? (fallbackPred cand) = none := by
    rw [List.findIdx?_eq_none_iff]
    intro x hx
    cases x with
    | none => rfl
    | some f =>
      show (if f = "" then false else (resolve f (some "") == cand)) = false
      by_cases hf : f = ""
      · rw [if_pos hf]
      · rw [if_neg hf]
        exact beq_eq_false_iff_ne.mpr (hnn f hx hf)
  unfold findMatchingReactDOMVersion matchedFilenameIndex
  rw [h1, h2]

/-- C5 witness: a document with no exact and no normalized match fails with
the source-not-found error. -/
theorem C5_exact_then_normalized_matching_witness :
    findMatchingReactDOMVersion envMain "react-dom.production.min.js"
      { version := 3, file := none, names := [], sourceRoot := none,
        sources := [some "app.js"], sourcesContent := some [none], mappings := [] } =
      .error ("Cannot find \x27react-dom.production.min.js\x27 in input sourcemap") :=
  C5_exact_then_normalized_matching.2.2 envMain "react-dom.production.min.js" _
    (by
      intro s hs
      simp only [List.mem_singleton] at hs
      rw [hs]
      decide)
    (by
      intro f hf h1
      simp only [List.mem_singleton, Option.some.injEq] at hf
      subst hf
      decide)

/-- C8: when the candidate filename occurs at more than one position, the
matcher selects the first occurrence and resolves that position's content:
for the exact pass (first conjunct) and for the normalization fallback pass
(second conjunct), the result equals running the matcher on a document
holding only the first occurrence and its content; the third conjunct is a
concrete run with the candidate at indices 0 and 1 carrying different
registered contents, returning the version of index 0's content. -/
theorem C8_first_occurrence_selected :
    (∀ (env : Env) (cand : String) (doc : SourceMapV3) (i : Nat)
       (hi : i < doc.sources.length),
      doc.sources.get ⟨i, hi⟩ = some cand →
      (∀ j (hj : j < i), doc.sources.get ⟨j, Nat.lt_trans hj hi⟩ ≠ some cand) →
      findMatchingReactDOMVersion env cand doc =
        findMatchingReactDOMVersion env cand
          (singletonSourceDoc cand (contentAt doc i))) ∧
    (∀ (env : Env) (cand : String) (doc : SourceMapV3) (i : Nat)
       (hi : i < doc.sources.length),
      (∀ s ∈ doc.sources, s ≠ some cand) →
      fallbackPred cand (doc.sources.get ⟨i, hi⟩) = true →
      (∀ j (hj : j < i), fallbackPred cand (doc.sources.get ⟨j, Nat.lt_trans hj hi⟩) = false) →
      findMatchingReactDOMVersion env cand doc =
        findMatchingReactDOMVersion env cand
          (singletonSourceDoc cand (contentAt doc i))) ∧
    (findMatchingReactDOMVersion envTwo "react-dom.production.min.js" docDup = .ok vAlt) := by
  refine ⟨?_, ?_, rfl⟩
  · intro env cand doc i hi hgi hfirst
    have hidx : matchedFilenameIndex cand doc = some i := by
      unfold matchedFilenameIndex
      rw [findIdx?_of_first doc.sources (fun s => s == some cand) hi
        (fun j hj => beq_eq_false_iff_ne.mpr (hfirst j hj))
        (by rw [hgi]; exact beq_self_eq_true (some cand))]
    exact findMatching_of_matchedIdx hidx
  · intro env cand doc i hi hne hfi hffirst
    have h1 : doc.sources.findIdx? (fun s => s == some cand) = none := by
      rw [List.findIdx?_eq_none_iff]
      intro x hx
      exact beq_eq_false_iff_ne.mpr (hne x hx)
    have hidx : matchedFilenameIndex cand doc = some i := by
      unfold matchedFilenameIndex
      rw [h1, findIdx?_of_first doc.sources (fallbackPred cand) hi hffirst hfi]
    exact findMatching_of_matchedIdx hidx

/-- C8 witness: a duplicate candidate at indices 0 and 1; the matcher result
coincides with the singleton document holding index 0's content. -/
theorem C8_first_occurrence_selected_witness :
    findMatchingReactDOMVersion envTwo "react-dom.production.min.js" docDup =
      findMatchingReactDOMVersion envTwo "react-dom.production.min.js"
        (singletonSourceDoc "react-dom.production.min.js" (contentAt docDup 0)) :=
  C8_first_occurrence_selected.1 envTwo "react-dom.production.min.js" docDup 0 (by decide)
    rfl (fun j hj => absurd hj (by omega))

/-! ## Lemmas: successful walks and all-skip composition -/

theorem walk_ok_char {loader : String → Except String (Option SourceMapV3 × List ReactVersion × List String)}
    {rs : List String} {children : List (Option SourceMapV3)} {vers : List ReactVersion}
    {logs : List String} (hw : walkSources loader rs = .ok (children, vers, logs)) :
    children = rs.map (childOf loader) ∧ vers = (rs.map (versOf loader)).flatten := by
  have hchar := walkSources_ok_of (walkSources_ok_elim hw)
  rw [hw] at hchar
  simp only [Except.ok.injEq, Prod.mk.injEq] at hchar
  exact ⟨hchar.1, hchar.2.1⟩

theorem childOf_none_of_versOf_nil {env : Env} {verbose : Bool} {doc : SourceMapV3} {r : String}
    (hok : ∃ x, rewriteLoader env verbose doc r = .ok x)
    (hv : versOf (rewriteLoader env verbose doc) r = []) :
    childOf (rewriteLoader env verbose doc) r = none := by
  obtain ⟨x, hx⟩ := hok
  obtain ⟨c, v, l⟩ := x
  simp only [versOf, hx] at hv
  cases hc : c with
  | none => simp [childOf, hx, hc]
  | some repl =>
    subst hc
    obtain ⟨pkg, entry, lgx, _, _, _, hcontra⟩ := rewriteLoader_ok_some_elim hx rfl
    simp only at hcontra
    rw [hcontra] at hv
    cases hv

theorem getD_none_of_all_none {l : List (Option SourceMapV3)}
    (h : ∀ c ∈ l, c = none) (i : Nat) : l.getD i none = none := by
  induction l generalizing i with
  | nil => cases i <;> rfl
  | cons a l ih =>
    cases i with
    | zero => exact h a (List.mem_cons_self a l)
    | succ i => exact ih (fun c hc => h c (List.mem_cons_of_mem a hc)) i

theorem blocksOf_length {m : SourceMapV3} {children : List (Option SourceMapV3)}
    (hlen : children.length = m.sources.length) :
    (blocksOf m children).length = m.sources.length := by
  unfold blocksOf
  simp [resolvedSources, contentsList, hlen]

theorem blocksOf_singleton_of_none {m : SourceMapV3} {children : List (Option SourceMapV3)}
    (h : ∀ c ∈ children, c = none) :
    ∀ b ∈ blocksOf m children, b.length = 1 := by
  intro b hb
  unfold blocksOf at hb
  obtain ⟨p, hp, hpb⟩ := List.mem_map.mp hb
  have hmem : p.2 ∈ children := (List.of_mem_zip hp).2
  rw [← hpb, h p.2 hmem]
  rfl

theorem composeSeg_id_of_none {children : List (Option SourceMapV3)}
    {blocks : List (List (String × Option String))} {namesLen : Nat}
    (hnone : ∀ c ∈ children, c = none)
    (hlen : ∀ b ∈ blocks, b.length = 1) {n : Nat} (hbl : blocks.length = n)
    {seg : Seg} (hwf : segInRange n seg) :
    composeSeg children blocks namesLen seg = some seg := by
  unfold composeSeg
  cases hsrc : seg.src with
  | none => rfl
  | some t =>
    obtain ⟨i, l, c⟩ := t
    simp only []
    rw [getD_none_of_all_none hnone i]
    have hoff : blockOffset blocks i = i :=
      blockOffset_all_singleton hlen (by rw [hbl]; exact Nat.le_of_lt (hwf i l c hsrc))
    rw [hoff]
    obtain ⟨gl, gc, src, nm⟩ := seg
    simp only at hsrc
    subst hsrc
    rfl

/-- All loader calls of a successful walk with an empty accumulation
returned no replacement. -/
theorem children_none_of_vers_nil {env : Env} {verbose : Bool} {doc : SourceMapV3}
    {rs : List String} {children : List (Option SourceMapV3)} {logs : List String}
    (hw : walkSources (rewriteLoader env verbose doc) rs = .ok (children, [], logs)) :
    ∀ c ∈ children, c = none := by
  obtain ⟨hch, hvs⟩ := walk_ok_char hw
  have hok := walkSources_ok_elim hw
  intro c hc
  rw [hch] at hc
  obtain ⟨r, hr, hcr⟩ := List.mem_map.mp hc
  have hvr : versOf (rewriteLoader env verbose doc) r = [] := by
    have : versOf (rewriteLoader env verbose doc) r ∈ rs.map (versOf (rewriteLoader env verbose doc)) :=
      List.mem_map_of_mem _ hr
    exact List.flatten_eq_nil_iff.mp hvs.symm _ this
  rw [← hcr]
  exact childOf_none_of_versOf_nil (hok r hr) hvr

/-- C4: in every successful rewrite whose flag is false, no version
descriptor is reported and the composed mappings are exactly the input
mappings (the composition is a structural pass-through), provided the input
segments reference existing sources. -/
theorem C4_false_flag_is_pass_through (env : Env) (verbose : Bool) (doc : SourceMapV3)
    (res : RewriteSourcemapResult) (lg : List String)
    (hwf : ∀ seg ∈ doc.mappings, segInRange doc.sources.length seg)
    (h : maybeRewriteSourcemapWithReactProd env verbose doc = .ok (res, lg))
    (hflag : res.rewroteSourcemap = false) :
    res.reactVersion = none ∧ res.outputSourcemap.mappings = doc.mappings := by
  obtain ⟨vers, wlogs, hrem, hfl, hver⟩ := maybeRewrite_ok_elim h
  have hvnil : vers = [] := by
    rw [hfl] at hflag
    have := of_decide_eq_false hflag
    exact List.length_eq_zero.mp (by omega)
  subst hvnil
  obtain ⟨children, hw, hm⟩ := remapping_ok_elim hrem
  have hnone : ∀ c ∈ children, c = none := children_none_of_vers_nil hw
  have hchlen : children.length = (resolvedSources doc).length := by
    rw [(walk_ok_char hw).1]
    exact List.length_map _ _
  have hchlen2 : children.length = doc.sources.length := by
    rw [hchlen]
    exact List.length_map _ _
  constructor
  · rw [hver]
    rfl
  · rw [hm]
    show doc.mappings.filterMap
      (composeSeg children (blocksOf doc children) doc.names.length) = doc.mappings
    apply filterMap_id_of
    intro seg hseg
    exact composeSeg_id_of_none hnone (blocksOf_singleton_of_none hnone)
      (blocksOf_length hchlen2) (hwf seg hseg)

/-- C4 witness: a document with one non-matching source and one segment;
the rewrite reports no version and passes the mappings through. -/
theorem C4_false_flag_is_pass_through_witness :
    resPlain.reactVersion = none ∧ resPlain.outputSourcemap.mappings = docPlain.mappings :=
  C4_false_flag_is_pass_through envMain false docPlain resPlain []
    (by
      intro seg hs i l c hsrc
      simp only [docPlain, List.mem_singleton] at hs
      subst hs
      simp only [] at hsrc
      simp only [Option.some.injEq, Prod.mk.injEq] at hsrc
      obtain ⟨h1, h2, h3⟩ := hsrc
      have hlen : docPlain.sources.length = 1 := rfl
      omega)
    rfl rfl

/-- C7: when the matcher succeeds (a registered descriptor is found for a
matched reference) but the sourcemap stored for that version cannot be
loaded (missing, unparseable, or not a valid version-3 document,
`loadExistingSourcemap` throws), the error propagates out of the rewrite
call and aborts it, rather than being treated as "no replacement" for that
reference. -/
theorem C7_registry_load_error_propagates (env : Env) (verbose : Bool) (doc : SourceMapV3)
    (i : Nat) (hv : doc.version = 3) (hi : i < (resolvedSources doc).length)
    (hpre : ∀ j (hj : j < i),
      execSupportedPackages ((resolvedSources doc).get ⟨j, Nat.lt_trans hj hi⟩) = none)
    (pkg : String)
    (hm : execSupportedPackages ((resolvedSources doc).get ⟨i, hi⟩) = some pkg)
    (entry : ReactVersion)
    (hfind : findMatchingReactDOMVersion env ((resolvedSources doc).get ⟨i, hi⟩) doc = .ok entry)
    (e : String) (hload : loadExistingSourcemap env false entry = .error e) :
    maybeRewriteSourcemapWithReactProd env verbose doc = .error e := by
  apply maybeRewrite_error_of_walk hv
  apply walkSources_error_at hi
  · intro j hj
    refine ⟨(none, [], verboseLog verbose ("Skipping sourcemap " ++
      ((resolvedSources doc).get ⟨j, Nat.lt_trans hj hi⟩) ++
      " because it does not contain a sourcemap for remapping")), ?_⟩
    unfold rewriteLoader
    rw [hpre j hj]
  · unfold rewriteLoader
    rw [hm]
    simp only []
    rw [hfind]
    simp only []
    unfold rewriteLoaderMatched
    rw [hload]

/-- C7 witness: a registered fingerprint whose stored sourcemap file is
absent aborts the whole rewrite with the load error. -/
theorem C7_registry_load_error_propagates_witness :
    maybeRewriteSourcemapWithReactProd { envMain with fs := fun _ => none } false docMain =
      .error ("Cannot find " ++ assetPathMain) :=
  C7_registry_load_error_propagates { envMain with fs := fun _ => none } false docMain 0
    rfl (by decide) (fun j hj => absurd hj (by omega))
    "react-dom.production.min.js" rfl vMain rfl ("Cannot find " ++ assetPathMain) rfl

/-! ## Lemmas: the rewrite result does not depend on the verbose flag -/

theorem exceptMap_eq_elim {α β : Type} {x y : Except String α} {f : α → β}
    (h : x.map f = y.map f) :
    (∃ e, x = .error e ∧ y = .error e) ∨ ∃ a b, x = .ok a ∧ y = .ok b ∧ f a = f b := by
  cases x with
  | error e =>
    cases y with
    | error e2 =>
      left
      have he : e = e2 := by
        injection (h : (Except.error e : Except String β) = .error e2)
      exact ⟨e, rfl, by rw [he]⟩
    | ok b =>
      exact Except.noConfusion (h : (Except.error e : Except String β) = .ok (f b))
  | ok a =>
    cases y with
    | error e2 =>
      exact Except.noConfusion (h : (Except.ok (f a) : Except String β) = .error e2)
    | ok b =>
      right
      have hab : f a = f b := by
        injection (h : (Except.ok (f a) : Except String β) = .ok (f b))
      exact ⟨a, b, rfl, rfl, hab⟩

/-- The loader result, stripped of its log component, does not depend on the
verbose flag. -/
theorem rewriteLoader_strip (env : Env) (doc : SourceMapV3) (v1 v2 : Bool) (file : String) :
    (rewriteLoader env v1 doc file).map (fun x => (x.1, x.2.1)) =
    (rewriteLoader env v2 doc file).map (fun x => (x.1, x.2.1)) := by
  unfold rewriteLoader rewriteLoaderMatched
  cases execSupportedPackages file with
  | none => rfl
  | some pkg =>
    simp only []
    cases findMatchingReactDOMVersion env file doc with
    | error e => rfl
    | ok entry =>
      simp only []
      cases loadExistingSourcemap env false entry with
      | error e => rfl
      | ok p =>
        obtain ⟨sm, lg⟩ := p
        simp only []
        by_cases h : isSourceMapV3Doc sm = true
        · rw [if_pos h, if_pos h]
          rfl
        · rw [if_neg h, if_neg h]

/-- The walk result, stripped of its log component, is preserved by swapping
the loader for one that agrees up to logs. -/
theorem walkSources_strip
    {loader1 loader2 : String → Except String (Option SourceMapV3 × List ReactVersion × List String)}
    (hl : ∀ r, (loader1 r).map (fun x => (x.1, x.2.1)) = (loader2 r).map (fun x => (x.1, x.2.1)))
    (rs : List String) :
    (walkSources loader1 rs).map (fun t => (t.1, t.2.1)) =
    (walkSources loader2 rs).map (fun t => (t.1, t.2.1)) := by
  induction rs with
  | nil => rfl
  | cons r rs ih =>
    rcases exceptMap_eq_elim (hl r) with ⟨e, h1, h2⟩ | ⟨x1, x2, h1, h2, hx⟩
    · simp only [walkSources, h1, h2]
      rfl
    · obtain ⟨c1, v1, l1⟩ := x1
      obtain ⟨c2, v2, l2⟩ := x2
      simp only [Prod.mk.injEq] at hx
      obtain ⟨hc, hv⟩ := hx
      subst hc
      subst hv
      rcases exceptMap_eq_elim ih with ⟨e, hw1, hw2⟩ | ⟨t1, t2, hw1, hw2, ht⟩
      · simp only [walkSources, h1, h2, hw1, hw2]
        rfl
      · obtain ⟨cs1, vs1, ls1⟩ := t1
        obtain ⟨cs2, vs2, ls2⟩ := t2
        simp only [Prod.mk.injEq] at ht
        obtain ⟨hcs, hvs⟩ := ht
        subst hcs
        subst hvs
        simp only [walkSources, h1, h2, hw1, hw2]
        rfl

/-- C10: the rewrite entry point is a pure function of the environment and
the input document, and the verbose option does not influence the returned
`RewriteSourcemapResult` (output document, flag, and reported descriptor) or
the thrown error; it only changes the emitted log lines. -/
theorem C10_result_independent_of_verbose (env : Env) (doc : SourceMapV3) (v1 v2 : Bool) :
    (maybeRewriteSourcemapWithReactProd env v1 doc).map Prod.fst =
    (maybeRewriteSourcemapWithReactProd env v2 doc).map Prod.fst := by
  unfold maybeRewriteSourcemapWithReactProd
  by_cases hv : (!(isSourceMapV3Doc doc)) = true
  · rw [if_pos hv, if_pos hv]
  · rw [if_neg hv, if_neg hv]
    unfold remapping
    have hws := walkSources_strip (rewriteLoader_strip env doc v1 v2) (resolvedSources doc)
    rcases exceptMap_eq_elim hws with ⟨e, hw1, hw2⟩ | ⟨t1, t2, hw1, hw2, ht⟩
    · rw [hw1, hw2]
      rfl
    · obtain ⟨cs1, vs1, ls1⟩ := t1
      obtain ⟨cs2, vs2, ls2⟩ := t2
      simp only [Prod.mk.injEq] at ht
      obtain ⟨hcs, hvs⟩ := ht
      subst hcs
      subst hvs
      rw [hw1, hw2]
      rfl

/-! ## Lemmas: locating the unique pattern-matching source -/

theorem resolvedSources_length (m : SourceMapV3) :
    (resolvedSources m).length = m.sources.length :=
  List.length_map _ _

theorem resolvedSources_get {m : SourceMapV3} {j : Nat} (hj : j < (resolvedSources m).length)
    (hj2 : j < m.sources.length) :
    (resolvedSources m).get ⟨j, hj⟩ =
      resolve ((m.sources.get ⟨j, hj2⟩).getD "") m.sourceRoot := by
  simp only [resolvedSources, List.get_eq_getElem, List.getElem_map]

theorem fallbackPred_some (cand f : String) :
    fallbackPred cand (some f) =
      if f = "" then false else (resolve f (some "") == cand) := rfl

theorem resolveContents_ok {env : Env} {cand content : String} {entry : ReactVersion}
    (hne : content ≠ "")
    (hreg : env.hashesToSourcemapDescriptors (env.hashSHA256 content) = some entry) :
    resolveContents env cand (some content) = .ok entry := by
  unfold resolveContents
  simp only []
  rw [if_neg hne, hreg]

/-- With no `sourceRoot`, the resolved source handed to the loader for the
unique pattern-matching position is found back in the document by the
matcher's two passes, at exactly that position. -/
theorem matchedFilenameIndex_of_unique_match {doc : SourceMapV3} {i : Nat}
    (hroot : doc.sourceRoot = none) (hi : i < (resolvedSources doc).length)
    (hmatch : execSupportedPackages ((resolvedSources doc).get ⟨i, hi⟩) ≠ none)
    (huniq : ∀ j (hj : j < (resolvedSources doc).length), j ≠ i →
      execSupportedPackages ((resolvedSources doc).get ⟨j, hj⟩) = none) :
    matchedFilenameIndex ((resolvedSources doc).get ⟨i, hi⟩) doc = some i := by
  have hlen := resolvedSources_length doc
  have hi2 : i < doc.sources.length := by omega
  have hrw : (resolvedSources doc).get ⟨i, hi⟩ =
      resolve ((doc.sources.get ⟨i, hi2⟩).getD "") none := by
    rw [resolvedSources_get hi hi2, hroot]
  set r := (resolvedSources doc).get ⟨i, hi⟩ with hrdef
  have hkey : ∀ j (hj : j < doc.sources.length) (f : String),
      doc.sources.get ⟨j, hj⟩ = some f → normalizeString f = r → j = i := by
    intro j hj f hf hnf
    by_contra hji
    have hjr : j < (resolvedSources doc).length := by omega
    have h0 : (resolvedSources doc).get ⟨j, hjr⟩ = normalizeString f := by
      rw [resolvedSources_get hjr hj, hroot, hf]
      rfl
    have h1 := huniq j hjr hji
    rw [h0, hnf] at h1
    exact hmatch h1
  have hfix : normalizeString r = r := by
    rw [hrw]
    exact normalizeString_resolve _ _
  cases hsi : doc.sources.get ⟨i, hi2⟩ with
  | none =>
    exfalso
    apply hmatch
    rw [hrw, hsi]
    rfl
  | some fi =>
    have hfine : fi ≠ "" := by
      intro h0
      apply hmatch
      rw [hrw, hsi, h0]
      rfl
    have hri : r = normalizeString fi := by
      rw [hrw, hsi]
      rfl
    by_cases hfir : fi = r
    · have hfound : doc.sources.findIdx? (fun s => s == some r) = some i := by
        apply findIdx?_of_unique doc.sources _ hi2
        · rw [hsi, hfir]
          exact beq_self_eq_true _
        · intro j hj hp
          exact hkey j hj r (eq_of_beq hp) hfix
      unfold matchedFilenameIndex
      rw [hfound]
    · have hnone : doc.sources.findIdx? (fun s => s == some r) = none := by
        rw [List.findIdx?_eq_none_iff]
        intro x hx
        obtain ⟨⟨j, hj⟩, hjx⟩ := List.mem_iff_get.mp hx
        by_cases hxr : x = some r
        · exfalso
          apply hfir
          have hji : j = i := hkey j hj r (by rw [hjx, hxr]) hfix
          subst hji
          have : some fi = some r := by
            rw [← hsi, hjx, hxr]
          injection this
        · exact beq_eq_false_iff_ne.mpr hxr
      have hfall : doc.sources.findIdx? (fallbackPred r) = some i := by
        apply findIdx?_of_unique doc.sources _ hi2
        · rw [hsi, fallbackPred_some, if_neg hfine, resolve_empty_base, ← hri]
          exact beq_self_eq_true r
        · intro j hj hp
          cases hsj : doc.sources.get ⟨j, hj⟩ with
          | none =>
            rw [hsj] at hp
            cases hp
          | some f =>
            rw [hsj, fallbackPred_some] at hp
            by_cases hf0 : f = ""
            · rw [if_pos hf0] at hp
              cases hp
            · rw [if_neg hf0, resolve_empty_base] at hp
              exact hkey j hj f hsj (eq_of_beq hp)
      unfold matchedFilenameIndex
      rw [hnone, hfall]

/-- The loader call for the unique pattern-matching source returns the
loaded replacement and accumulates exactly the registered entry. -/
theorem rewriteLoader_at_matched {env : Env} (verbose : Bool) {doc : SourceMapV3} {i : Nat}
    (hroot : doc.sourceRoot = none) (hi : i < (resolvedSources doc).length)
    {pkg : String} (hm : execSupportedPackages ((resolvedSources doc).get ⟨i, hi⟩) = some pkg)
    (huniq : ∀ j (hj : j < (resolvedSources doc).length), j ≠ i →
      execSupportedPackages ((resolvedSources doc).get ⟨j, hj⟩) = none)
    {content : String} (hc : contentAt doc i = some content) (hcne : content ≠ "")
    {entry : ReactVersion}
    (hreg : env.hashesToSourcemapDescriptors (env.hashSHA256 content) = some entry)
    {asset : SourceMapV3} {alog : List String}
    (hload : loadExistingSourcemap env false entry = .ok (asset, alog))
    (hav : asset.version = 3) :
    ∃ lg, rewriteLoader env verbose doc ((resolvedSources doc).get ⟨i, hi⟩) =
      .ok (some asset, [entry], lg) := by
  have hidx := matchedFilenameIndex_of_unique_match hroot hi (by rw [hm]; intro h0; cases h0) huniq
  have hfind : findMatchingReactDOMVersion env ((resolvedSources doc).get ⟨i, hi⟩) doc =
      .ok entry := by
    unfold findMatchingReactDOMVersion
    rw [hidx]
    simp only []
    rw [hc]
    exact resolveContents_ok hcne hreg
  refine ⟨(verboseLog verbose
      ("Found " ++ pkg ++ " in file: " ++ ((resolvedSources doc).get ⟨i, hi⟩)) ++
    verboseLog verbose
      ("Found matching version for " ++ pkg ++ ": " ++ entry.version)) ++ alog, ?_⟩
  unfold rewriteLoader
  rw [hm]
  simp only []
  rw [hfind]
  simp only []
  unfold rewriteLoaderMatched
  rw [hload]
  simp only []
  rw [if_pos (by simp [isSourceMapV3Doc, hav])]

/-- C3 counterexample: the claim asserts that a valid document with exactly
one pattern-matching source whose embedded content fingerprint is registered
always yields `rewroteSourcemap = true` with the registered descriptor; but
when the registry asset for that entry cannot be loaded, the rewrite throws
instead of returning any result (as the spec itself requires of
`RegistryLoadError`), refuting the claim as stated at this input. -/
theorem C3_counterexample_registered_but_asset_missing :
    envMain.hashesToSourcemapDescriptors (envMain.hashSHA256 "MIN") = some vMain ∧
    contentAt docMain 0 = some "MIN" ∧
    maybeRewriteSourcemapWithReactProd { envMain with fs := fun _ => none } false docMain =
      .error ("Cannot find " ++ assetPathMain) :=
  ⟨rfl, rfl, rfl⟩

/-- C3 (amended): for every valid document without a `sourceRoot` containing
exactly one source whose resolved name matches the target pattern, whose
embedded content is present, non-empty and has a registered fingerprint, and
whose registry asset loads as a valid version-3 sourcemap, the rewrite
returns `rewroteSourcemap = true` and a descriptor equal to the registered
entry (first conjunct); in general, for every successful rewrite the
reported descriptor is the head of the accumulated descriptor list of the
composer walk and the flag is true exactly when that accumulation is
non-empty (second conjunct). -/
theorem C3_registered_unique_match_rewrites :
    (∀ (env : Env) (verbose : Bool) (doc : SourceMapV3) (i : Nat)
       (hi : i < (resolvedSources doc).length),
      doc.version = 3 → doc.sourceRoot = none →
      execSupportedPackages ((resolvedSources doc).get ⟨i, hi⟩) ≠ none →
      (∀ j (hj : j < (resolvedSources doc).length), j ≠ i →
        execSupportedPackages ((resolvedSources doc).get ⟨j, hj⟩) = none) →
      ∀ (content : String), contentAt doc i = some content → content ≠ "" →
      ∀ (entry : ReactVersion),
        env.hashesToSourcemapDescriptors (env.hashSHA256 content) = some entry →
      ∀ (asset : SourceMapV3) (alog : List String),
        loadExistingSourcemap env false entry = .ok (asset, alog) → asset.version = 3 →
      ∃ res lg, maybeRewriteSourcemapWithReactProd env verbose doc = .ok (res, lg) ∧
        res.rewroteSourcemap = true ∧ res.reactVersion = some entry) ∧
    (∀ (env : Env) (verbose : Bool) (doc : SourceMapV3) (res : RewriteSourcemapResult)
       (lg : List String),
      maybeRewriteSourcemapWithReactProd env verbose doc = .ok (res, lg) →
      ∃ vers wlogs,
        remapping doc (rewriteLoader env verbose doc) = .ok (res.outputSourcemap, vers, wlogs) ∧
        res.reactVersion = vers.head? ∧ (res.rewroteSourcemap = true ↔ vers ≠ [])) := by
  constructor
  · intro env verbose doc i hi hv hroot hmatch huniq content hc hcne entry hreg asset alog
      hload hav
    obtain ⟨pkg, hm⟩ := Option.ne_none_iff_exists.mp hmatch
    obtain ⟨lgm, hloadm⟩ :=
      rewriteLoader_at_matched verbose hroot hi hm.symm huniq hc hcne hreg hload hav
    have hok : ∀ r ∈ resolvedSources doc, ∃ x, rewriteLoader env verbose doc r = .ok x := by
      intro r hr
      obtain ⟨⟨j, hj⟩, hjr⟩ := List.mem_iff_get.mp hr
      by_cases hji : j = i
      · subst hji
        rw [← hjr]
        exact ⟨_, hloadm⟩
      · refine ⟨(none, [], verboseLog verbose ("Skipping sourcemap " ++ r ++
          " because it does not contain a sourcemap for remapping")), ?_⟩
        unfold rewriteLoader
        rw [← hjr, huniq j hj hji]
    have hchar := walkSources_ok_of hok
    have hvers : ((resolvedSources doc).map (versOf (rewriteLoader env verbose doc))).flatten =
        [entry] := by
      refine flatten_of_single i (by rw [List.length_map]; exact hi) ?_ ?_
      · rw [get_map_eq (versOf (rewriteLoader env verbose doc)) (resolvedSources doc) i
          (by rw [List.length_map]; exact hi) hi]
        unfold versOf
        rw [hloadm]
      · intro j hj hji
        have hj2 : j < (resolvedSources doc).length := by
          rw [List.length_map] at hj
          exact hj
        rw [get_map_eq (versOf (rewriteLoader env verbose doc)) (resolvedSources doc) j hj hj2]
        have hskip : rewriteLoader env verbose doc ((resolvedSources doc).get ⟨j, hj2⟩) =
            .ok (none, [], verboseLog verbose
              ("Skipping sourcemap " ++ (resolvedSources doc).get ⟨j, hj2⟩ ++
               " because it does not contain a sourcemap for remapping")) := by
          unfold rewriteLoader
          rw [huniq j hj2 hji]
        unfold versOf
        rw [hskip]
    rw [hvers] at hchar
    refine ⟨_, _, maybeRewrite_of_walk hv hchar, ?_, ?_⟩
    · rfl
    · rfl
  · intro env verbose doc res lg h
    obtain ⟨vers, wlogs, hrem, hfl, hver⟩ := maybeRewrite_ok_elim h
    refine ⟨vers, wlogs, hrem, hver, ?_⟩
    rw [hfl]
    constructor
    · intro hd
      have := of_decide_eq_true hd
      intro h0
      rw [h0] at this
      simp at this
    · intro hne
      apply decide_eq_true
      cases vers with
      | nil => exact absurd rfl hne
      | cons a l => simp

/-- C3 witness: the concrete happy path: one matching source, registered
content, loadable valid asset; the rewrite reports the registered entry. -/
theorem C3_registered_unique_match_rewrites_witness :
    ∃ res lg, maybeRewriteSourcemapWithReactProd envMain false docMain = .ok (res, lg) ∧
      res.rewroteSourcemap = true ∧ res.reactVersion = some vMain := by
  have hlen : (resolvedSources docMain).length = 1 := rfl
  have hi : (0 : Nat) < (resolvedSources docMain).length := by omega
  have hexec : execSupportedPackages ((resolvedSources docMain).get ⟨0, hi⟩) ≠ none := by
    rw [show (resolvedSources docMain).get ⟨0, hi⟩ = "react-dom.production.min.js" from rfl]
    decide
  exact C3_registered_unique_match_rewrites.1 envMain false docMain 0 hi
    rfl rfl hexec
    (fun j hj hji => absurd (show j = 0 by omega) hji)
    "MIN" rfl (by decide) vMain rfl assetDocMain [] rfl rfl

/-! ## Lemmas: the composed output contains no pattern-matching source -/

theorem get_zip_eq {α β : Type} (l1 : List α) (l2 : List β) (j : Nat)
    (h : j < (l1.zip l2).length) (h1 : j < l1.length) (h2 : j < l2.length) :
    (l1.zip l2).get ⟨j, h⟩ = (l1.get ⟨j, h1⟩, l2.get ⟨j, h2⟩) := by
  simp only [List.get_eq_getElem, List.getElem_zip]

theorem resolvedSources_fixed {m : SourceMapV3} {j : Nat}
    (hj : j < (resolvedSources m).length) (hj2 : j < m.sources.length) :
    normalizeString ((resolvedSources m).get ⟨j, hj⟩) = (resolvedSources m).get ⟨j, hj⟩ := by
  rw [resolvedSources_get hj hj2]
  exact normalizeString_resolve _ _

theorem mem_resolvedSources_fixed {m : SourceMapV3} {r : String}
    (hr : r ∈ resolvedSources m) : normalizeString r = r := by
  obtain ⟨x, hx, hxr⟩ := List.mem_map.mp hr
  rw [← hxr]
  exact normalizeString_resolve _ _

/-- Every source of the composed output document resolves, on a second pass,
to a string the target pattern does not match, provided every loader call of
the first walk succeeded and every stored asset is itself free of
pattern-matching sources. -/
theorem composed_sources_unmatched {env : Env} {verbose : Bool} {doc : SourceMapV3}
    {children : List (Option SourceMapV3)} {vers : List ReactVersion} {wlogs : List String}
    (hw : walkSources (rewriteLoader env verbose doc) (resolvedSources doc) =
      .ok (children, vers, wlogs))
    (hassets : ∀ (entry : ReactVersion) (m : SourceMapV3) (l : List String),
      loadExistingSourcemap env false entry = .ok (m, l) →
      ∀ r ∈ resolvedSources m, execSupportedPackages r = none) :
    ∀ r2 ∈ resolvedSources (composedDoc doc children), execSupportedPackages r2 = none := by
  have hok := walkSources_ok_elim hw
  have hch := (walk_ok_char hw).1
  intro r2 hr2
  unfold composedDoc resolvedSources at hr2
  simp only [List.map_map, List.mem_map] at hr2
  obtain ⟨p, hp, hpr⟩ := hr2
  have hr2eq : r2 = resolve p.1 none := by
    rw [← hpr]
    rfl
  obtain ⟨b, hb, hpb⟩ := List.mem_flatten.mp hp
  unfold blocksOf at hb
  obtain ⟨q, hq, hqb⟩ := List.mem_map.mp hb
  obtain ⟨⟨bi, hbi⟩, hqg⟩ := List.mem_iff_get.mp hq
  have hbi1 : bi < ((resolvedSources doc).zip (contentsList doc)).length :=
    lt_of_lt_of_le hbi (by rw [List.length_zip]; exact min_le_left _ _)
  have hbi2 : bi < children.length :=
    lt_of_lt_of_le hbi (by rw [List.length_zip]; exact min_le_right _ _)
  have hbirs : bi < (resolvedSources doc).length :=
    lt_of_lt_of_le hbi1 (by rw [List.length_zip]; exact min_le_left _ _)
  have hbic : bi < (contentsList doc).length :=
    lt_of_lt_of_le hbi1 (by rw [List.length_zip]; exact min_le_right _ _)
  rw [get_zip_eq _ _ bi hbi hbi1 hbi2,
    get_zip_eq _ _ bi hbi1 hbirs hbic] at hqg
  have hrsmem : (resolvedSources doc).get ⟨bi, hbirs⟩ ∈ resolvedSources doc :=
    List.get_mem _ _ _
  obtain ⟨x, hx⟩ := hok _ hrsmem
  have hcbi : children.get ⟨bi, hbi2⟩ =
      childOf (rewriteLoader env verbose doc) ((resolvedSources doc).get ⟨bi, hbirs⟩) := by
    subst hch
    exact get_map_eq _ _ bi hbi2 hbirs
  cases hcq : childOf (rewriteLoader env verbose doc)
      ((resolvedSources doc).get ⟨bi, hbirs⟩) with
  | none =>
    have hx1 : x.1 = none := by
      have := hcq
      simp only [childOf, hx] at this
      exact this
    have hexec := (rewriteLoader_ok_none_elim hx hx1).1
    have hbval : b = [((resolvedSources doc).get ⟨bi, hbirs⟩,
        (contentsList doc).get ⟨bi, hbic⟩)] := by
      rw [← hqb, ← hqg, hcbi, hcq]
      rfl
    rw [hbval] at hpb
    simp only [List.mem_singleton] at hpb
    subst hpb
    rw [hr2eq]
    simp only [resolve_none_eq]
    rw [resolvedSources_fixed hbirs (by
      have := hbirs
      rw [resolvedSources_length] at this
      exact this)]
    exact hexec
  | some repl =>
    have hx1 : x.1 = some repl := by
      have := hcq
      simp only [childOf, hx] at this
      exact this
    obtain ⟨pkg, entry, lgx, _, _, hload, _⟩ := rewriteLoader_ok_some_elim hx hx1
    have hbval : b = (resolvedSources repl).zip (contentsList repl) := by
      rw [← hqb, ← hqg, hcbi, hcq]
      rfl
    rw [hbval] at hpb
    have hp1 : p.1 ∈ resolvedSources repl := by
      have := List.of_mem_zip (show (p.1, p.2) ∈ (resolvedSources repl).zip (contentsList repl) from by
        rw [show (p.1, p.2) = p from rfl]
        exact hpb)
      exact this.1
    rw [hr2eq]
    simp only [resolve_none_eq]
    rw [mem_resolvedSources_fixed hp1]
    exact hassets entry repl lgx hload p.1 hp1

/-- C6: the rewrite is idempotent: running it again on the output document
of a successful first rewrite finds nothing to rewrite and reports
`rewroteSourcemap = false`, because every matched reference was composed
away (replaced by the stored asset's sources, which themselves match no
pattern) and every kept source had already failed the pattern test. -/
theorem C6_rewrite_idempotent (env : Env) (v1 v2 : Bool) (doc : SourceMapV3)
    (res : RewriteSourcemapResult) (lg : List String)
    (h1 : maybeRewriteSourcemapWithReactProd env v1 doc = .ok (res, lg))
    (hassets : ∀ (entry : ReactVersion) (m : SourceMapV3) (l : List String),
      loadExistingSourcemap env false entry = .ok (m, l) →
      ∀ r ∈ resolvedSources m, execSupportedPackages r = none) :
    ∃ res2 lg2,
      maybeRewriteSourcemapWithReactProd env v2 res.outputSourcemap = .ok (res2, lg2) ∧
      res2.rewroteSourcemap = false := by
  obtain ⟨vers, wlogs, hrem, hfl, hver⟩ := maybeRewrite_ok_elim h1
  obtain ⟨children, hw, hm⟩ := remapping_ok_elim hrem
  have hout := composed_sources_unmatched hw hassets
  have hok2 : ∀ r ∈ resolvedSources (composedDoc doc children),
      ∃ x, rewriteLoader env v2 (composedDoc doc children) r = .ok x := by
    intro r hr
    refine ⟨(none, [], verboseLog v2 ("Skipping sourcemap " ++ r ++
      " because it does not contain a sourcemap for remapping")), ?_⟩
    unfold rewriteLoader
    rw [hout r hr]
  have hchar2 := walkSources_ok_of hok2
  have hvers2 : ((resolvedSources (composedDoc doc children)).map
      (versOf (rewriteLoader env v2 (composedDoc doc children)))).flatten = [] := by
    apply flatten_all_nil
    intro v hv
    obtain ⟨r, hr, hrv⟩ := List.mem_map.mp hv
    have hskip : rewriteLoader env v2 (composedDoc doc children) r = .ok (none, [],
        verboseLog v2 ("Skipping sourcemap " ++ r ++
          " because it does not contain a sourcemap for remapping")) := by
      unfold rewriteLoader
      rw [hout r hr]
    rw [← hrv]
    unfold versOf
    rw [hskip]
  rw [hvers2] at hchar2
  rw [hm]
  exact ⟨_, _, maybeRewrite_of_walk rfl hchar2, rfl⟩

/-- C6 witness: the concrete happy-path rewrite of `docMain` followed by a
second rewrite of its output, which rewrites nothing. -/
theorem C6_rewrite_idempotent_witness :
    ∃ res2 lg2,
      maybeRewriteSourcemapWithReactProd envMain false resMain.outputSourcemap =
        .ok (res2, lg2) ∧ res2.rewroteSourcemap = false := by
  apply C6_rewrite_idempotent envMain false false docMain resMain [] rfl
  intro entry m l h
  unfold loadExistingSourcemap at h
  have h2 : (match loadSourcemapDoc envMain.fs (String.intercalate "/"
      [envMain.dirname, "../assets", entry.package, entry.version,
        entry.filename ++ ".map"]) with
    | Except.error e => (Except.error e : Except String (SourceMapV3 × List String))
    | Except.ok m2 => Except.ok (m2, ([] : List String))) = Except.ok (m, l) := h
  cases hls : loadSourcemapDoc envMain.fs (String.intercalate "/"
      [envMain.dirname, "../assets", entry.package, entry.version,
        entry.filename ++ ".map"]) with
  | error e =>
    rw [hls] at h2
    exact Except.noConfusion h2
  | ok m2 =>
    rw [hls] at h2
    simp only [Except.ok.injEq, Prod.mk.injEq] at h2
    obtain ⟨hm2, hl⟩ := h2
    subst hm2
    unfold loadSourcemapDoc at hls
    by_cases hp : String.intercalate "/" [envMain.dirname, "../assets", entry.package,
        entry.version, entry.filename ++ ".map"] = assetPathMain
    · rw [show envMain.fs (String.intercalate "/" [envMain.dirname, "../assets",
          entry.package, entry.version, entry.filename ++ ".map"]) =
          some assetDocMain from by
        show (if String.intercalate "/" [envMain.dirname, "../assets", entry.package,
          entry.version, entry.filename ++ ".map"] = assetPathMain
          then some assetDocMain else none) = some assetDocMain
        rw [if_pos hp]] at hls
      simp only [] at hls
      rw [if_pos (by decide)] at hls
      simp only [Except.ok.injEq] at hls
      subst hls
      intro r hr
      rw [show resolvedSources assetDocMain = ["react-dom/src/index.js"] from rfl] at hr
      simp only [List.mem_singleton] at hr
      subst hr
      decide
    · rw [show envMain.fs (String.intercalate "/" [envMain.dirname, "../assets",
          entry.package, entry.version, entry.filename ++ ".map"]) = none from by
        show (if String.intercalate "/" [envMain.dirname, "../assets", entry.package,
          entry.version, entry.filename ++ ".map"] = assetPathMain
          then some assetDocMain else none) = none
        rw [if_neg hp]] at hls
      exact Except.noConfusion hls

end RPS
